import Mathlib

set_option maxRecDepth 100000

/-!
Verification development for the newsletter-generator content store
(`src/newsletter_generator/storage/storage_manager.py` and
`src/newsletter_generator/utils/content_processing.py`).

Strings are modelled as `List Char` (Python `str` is a sequence of code
points).  Python functions are translated one-to-one into executable Lean
definitions; nondeterministic inputs of the code (`uuid.uuid4()`,
`datetime.now()`) are passed as explicit parameters, and filesystem state is
threaded explicitly through a `Store` structure together with a trace of
filesystem events.

SHA-256 (`hashlib.sha256(...).hexdigest()`) is modelled by `sha256hex`, an
injective stand-in that hex-encodes each code point with a fixed width.  All
properties proved here depend only on equality or inequality of digests, so
the collision-free idealisation is the standard modelling choice; like the
real hex digest, the output consists of the characters `0-9a-f` only.
-/

/-- Python strings as lists of code points. -/
abbrev Str := List Char

/-- Converts a Lean string literal to the `List Char` model. -/
def str (s : String) : Str := s.data

/-- Python `str.isspace` set relevant to `str.strip()` (ASCII whitespace;
Python additionally strips Unicode whitespace, which no input in this
development contains). -/
def pyIsSpace (c : Char) : Bool :=
  c == ' ' || c == '\t' || c == '\n' || c == '\x0d' || c == '\x0b' || c == '\x0c'

/-- Python `str.lower` on one code point, for the ASCII range (no input in
this development contains cased non-ASCII characters). -/
def pyLowerChar (c : Char) : Char :=
  if 'A' ≤ c ∧ c ≤ 'Z' then Char.ofNat (c.toNat + 32) else c

/-- Python `str.lower`. -/
def pyLower (s : Str) : Str := s.map pyLowerChar

/-- Python `str.strip()` with no argument: removes leading and trailing
whitespace. -/
def pyStrip (s : Str) : Str :=
  ((s.dropWhile pyIsSpace).reverse.dropWhile pyIsSpace).reverse

/-- Helper for `splitWs`: accumulates the current word (reversed) while
scanning. -/
def splitWsAux : Str → Str → List Str
  | cur, [] => if cur.isEmpty then [] else [cur.reverse]
  | cur, c :: t =>
    if pyIsSpace c then
      if cur.isEmpty then splitWsAux [] t else cur.reverse :: splitWsAux [] t
    else splitWsAux (c :: cur) t

/-- Python `str.split()` with no argument: split on runs of whitespace,
producing no empty words. -/
def splitWs (s : Str) : List Str := splitWsAux [] s

/-- Python `str.split(sep)` for a one-character separator: keeps empty
fields. -/
def splitSep (sep : Char) : Str → List Str
  | [] => [[]]
  | c :: t =>
    let r := splitSep sep t
    if c == sep then [] :: r
    else
      match r with
      | [] => [[c]]
      | p :: ps => (c :: p) :: ps

/-- Joins parts with a separator string (inverse of splitting). -/
def joinSep (sep : Str) : List Str → Str
  | [] => []
  | [x] => x
  | x :: y :: t => x ++ sep ++ joinSep sep (y :: t)

/-- Splits at the first occurrence of a character, like Python
`s.split(c, 1)` when the separator occurs; `none` when it does not. -/
def splitFirst (sep : Char) : Str → Option (Str × Str)
  | [] => none
  | c :: t =>
    if c == sep then some ([], t)
    else (splitFirst sep t).map (fun p => (c :: p.1, p.2))

/-- Tests whether `pat` is an initial segment of `l` (Python
`str.startswith`). -/
def leadsWith : Str → Str → Bool
  | [], _ => true
  | _ :: _, [] => false
  | a :: ps, b :: l => a == b && leadsWith ps l

/-- Tests whether `pat` is a final segment of `l` (Python `str.endswith`). -/
def trailsWith (pat l : Str) : Bool := leadsWith pat.reverse l.reverse

/-- Index of the first occurrence of `pat` in `l`, like Python `str.find`
restricted to a success/failure option. -/
def findIdx (pat : Str) : Str → Option Nat
  | [] => if leadsWith pat [] then some 0 else none
  | c :: t =>
    if leadsWith pat (c :: t) then some 0 else (findIdx pat t).map (· + 1)

/-- Counts occurrences of a character (Python `str.count` for a single
character). -/
def countChar (c : Char) (l : Str) : Nat := (l.filter (· == c)).length

/-- Code-point comparison, the order Python uses to compare strings. -/
def charLtB (a b : Char) : Bool := Nat.blt a.toNat b.toNat

/-- Python string `<`: lexicographic comparison by code point. -/
def lexLtB : Str → Str → Bool
  | [], [] => false
  | [], _ :: _ => true
  | _ :: _, [] => false
  | a :: x, b :: y => charLtB a b || (a == b && lexLtB x y)

/-- Inserts a word into a strictly sorted duplicate-free list, keeping it
strictly sorted and duplicate-free. -/
def insertSorted (w : Str) : List Str → List Str
  | [] => [w]
  | h :: t =>
    if lexLtB w h then w :: h :: t
    else if w == h then h :: t
    else h :: insertSorted w t

/-- Canonical form of a Python `set` of strings: the strictly sorted list of
its members.  `sorted(s)` on the Python set is then the list itself. -/
def sortedDedup (l : List Str) : List Str := l.foldr insertSorted []

/-- Hexadecimal digit (lowercase, as produced by `hexdigest()`). -/
def hexDigit (n : Nat) : Char :=
  if n < 10 then Char.ofNat (48 + n) else Char.ofNat (97 + (n - 10))

/-- Fixed-width (6 hex digits cover every Unicode code point) encoding of one
code point. -/
def hexEncodeChar (c : Char) : Str :=
  [hexDigit (c.toNat / 1048576 % 16), hexDigit (c.toNat / 65536 % 16),
   hexDigit (c.toNat / 4096 % 16), hexDigit (c.toNat / 256 % 16),
   hexDigit (c.toNat / 16 % 16), hexDigit (c.toNat % 16)]

/-- Model of `hashlib.sha256(s.encode()).hexdigest()`: an injective digest
whose output ranges over `0-9a-f`, standing in for SHA-256 under the
collision-free idealisation (every property proved here depends only on
digest equality). -/
def sha256hex (s : Str) : Str := s.flatMap hexEncodeChar

/-!
Embedding of `utils/content_processing.py`.
-/

/-- Stopword set from `extract_significant_words` (line 97 of
`content_processing.py`). -/
def stopwords : List Str :=
  [str "and", str "the", str "for", str "with", str "this", str "that",
   str "from", str "what", str "have", str "been"]

/-- Membership of a string in a list of strings, decidably. -/
def memStr (w : Str) (l : List Str) : Bool := l.any (· == w)

/-- Embeds `extract_significant_words(text)` with the default
`min_length=4`, `max_words=1000`: split on whitespace, keep lower-cased
tokens of length at least 4 whose lower-casing is not a stopword, collect
into a set, then `set(sorted(significant)[:1000])`.  Python sets are
modelled by their canonical strictly sorted member list (`sortedDedup`), so
`sorted` on the set is the identity. -/
def extract_significant_words (text : Str) : List Str :=
  let words := splitWs text
  let significant :=
    sortedDedup
      ((words.filter
          (fun w => decide (4 ≤ w.length) && !memStr (pyLower w) stopwords)).map
        pyLower)
  sortedDedup (significant.take 1000)

/-- Embeds `generate_content_fingerprint(content, title)`: lower-case
`title + " " + content`, extract the significant words, join the sorted set
with single spaces and hash it. -/
def generate_content_fingerprint (content : Str) (title : Str) : Str :=
  let combined := pyLower (title ++ str " " ++ content)
  let significant := extract_significant_words combined
  sha256hex (joinSep (str " ") significant)

/-- Python `set.intersection` on canonical sorted member lists. -/
def setInter (a b : List Str) : List Str := a.filter (fun w => memStr w b)

/-- Python `set.union` on canonical sorted member lists. -/
def setUnion (a b : List Str) : List Str := sortedDedup (a ++ b)

/-- Embeds `calculate_content_similarity(content1, content2)`: Jaccard
similarity of the significant-word sets of the two lower-cased texts, `0.0`
when the union is empty.  The Python float quotient of the two small integer
cardinalities is modelled exactly in `ℚ`. -/
def calculate_content_similarity (content1 content2 : Str) : ℚ :=
  let words1 := extract_significant_words (pyLower content1)
  let words2 := extract_significant_words (pyLower content2)
  let inter := (setInter words1 words2).length
  let union := (setUnion words1 words2).length
  if union = 0 then 0 else (inter : ℚ) / (union : ℚ)

/-!
Embedding of the parts of `urllib.parse` used by `normalise_url`
(CPython `Lib/urllib/parse.py`), restricted to URLs made of code points
below 128 without ASCII control characters (the only ones occurring in this
development), where CPython's version-dependent control-character
preprocessing is the identity.
-/

/-- ASCII letter test. -/
def isAlphaB (c : Char) : Bool :=
  ('a' ≤ c && c ≤ 'z') || ('A' ≤ c && c ≤ 'Z')

/-- ASCII digit test. -/
def isDigitB (c : Char) : Bool := '0' ≤ c && c ≤ '9'

/-- Characters allowed in a URL scheme (`scheme_chars` in CPython). -/
def schemeChar (c : Char) : Bool :=
  isAlphaB c || isDigitB c || c == '+' || c == '-' || c == '.'

/-- Result of `urlparse`: the six components of a `ParseResult`. -/
structure ParseR where
  scheme : Str
  netloc : Str
  path : Str
  params : Str
  query : Str
  fragment : Str
deriving DecidableEq, Repr

/-- Characters ending the netloc in `_splitnetloc` (CPython stops at the
first of `/?#`). -/
def netlocEndChar (c : Char) : Bool := c == '/' || c == '?' || c == '#'

/-- Embeds `urlsplit` on control-character-free input: extract the scheme
when the text before the first `:` is a nonempty run of scheme characters
starting with a letter, then the netloc after `//` up to the first `/?#`
(failing, like CPython, on an unbalanced square bracket in the netloc), then
the fragment after the first `#`, then the query after the first `?`. -/
def pyUrlsplit (url : Str) : Option ParseR :=
  let (scheme, rest) :=
    match splitFirst ':' url with
    | some (pre, post) =>
      if !pre.isEmpty && pre.all schemeChar && isAlphaB (pre.headD 'a') then
        (pyLower pre, post)
      else ([], url)
    | none => ([], url)
  let (netloc, rest2) :=
    if leadsWith (str "//") rest then
      (((rest.drop 2).takeWhile (fun c => !netlocEndChar c)),
       ((rest.drop 2).dropWhile (fun c => !netlocEndChar c)))
    else ([], rest)
  if (netloc.contains '[') != (netloc.contains ']') then none
  else
    let (rest3, fragment) :=
      match splitFirst '#' rest2 with
      | some (a, b) => (a, b)
      | none => (rest2, [])
    let (path, query) :=
      match splitFirst '?' rest3 with
      | some (a, b) => (a, b)
      | none => (rest3, [])
    some { scheme := scheme, netloc := netloc, path := path, params := [],
           query := query, fragment := fragment }

/-- Index of the last occurrence of a character (used only when present). -/
def lastIdxOf (c : Char) (l : Str) : Nat :=
  match findIdx [c] l.reverse with
  | none => 0
  | some i => l.length - 1 - i

/-- Embeds `_splitparams`: split the path's params at the first `;` at or
after the last `/` (or the first `;` overall when the path has no slash). -/
def splitParams (p : Str) : Str × Str :=
  if p.contains '/' then
    let start := lastIdxOf '/' p
    match findIdx [';'] (p.drop start) with
    | none => (p, [])
    | some j => (p.take (start + j), p.drop (start + j + 1))
  else
    match findIdx [';'] p with
    | none => (p, [])
    | some i => (p.take i, p.drop (i + 1))

/-- Embeds `urlparse`: `urlsplit` plus the params split on the path. -/
def pyUrlparse (url : Str) : Option ParseR :=
  match pyUrlsplit url with
  | none => none
  | some r =>
    if r.path.contains ';' then
      let (p2, par) := splitParams r.path
      some { r with path := p2, params := par }
    else some r

/-- Hexadecimal digit test. -/
def isHexB (c : Char) : Bool :=
  isDigitB c || ('a' ≤ c && c ≤ 'f') || ('A' ≤ c && c ≤ 'F')

/-- Value of a hexadecimal digit. -/
def hexVal (c : Char) : Nat :=
  if isDigitB c then c.toNat - 48
  else if 'a' ≤ c && c ≤ 'f' then c.toNat - 87
  else c.toNat - 55

/-- Embeds `unquote_plus` for single-byte percent escapes: `+` becomes a
space and `%XX` decodes to the code point `XX`; a `%` not followed by two
hex digits is kept as-is, as in CPython.  (CPython decodes multi-byte UTF-8
escape runs; every input in this development stays below `%80`, where the
two coincide.) -/
def unquotePlus : Str → Str
  | [] => []
  | '%' :: a :: b :: t =>
    if isHexB a && isHexB b then
      Char.ofNat (16 * hexVal a + hexVal b) :: unquotePlus t
    else '%' :: unquotePlus (a :: b :: t)
  | '+' :: t => ' ' :: unquotePlus t
  | c :: t => c :: unquotePlus t

/-- Characters `quote_plus` never escapes (`_ALWAYS_SAFE` minus `/`, which
`quote_plus` removes from the safe set). -/
def alwaysSafe (c : Char) : Bool :=
  isAlphaB c || isDigitB c || c == '_' || c == '.' || c == '-' || c == '~'

/-- Uppercase hexadecimal digit, as `quote` produces. -/
def hexDigitU (n : Nat) : Char :=
  if n < 10 then Char.ofNat (48 + n) else Char.ofNat (65 + (n - 10))

/-- Embeds `quote_plus` for code points below 128 (non-ASCII would be
percent-encoded byte-wise through UTF-8; no input here contains any). -/
def quotePlus (s : Str) : Str :=
  s.flatMap fun c =>
    if c == ' ' then ['+']
    else if alwaysSafe c then [c]
    else ['%', hexDigitU (c.toNat / 16 % 16), hexDigitU (c.toNat % 16)]

/-- Embeds the per-field step of `parse_qsl` with the default
`keep_blank_values=False`: empty fields are skipped, fields without `=` are
skipped, fields with an empty value are skipped, name and value are
percent-decoded. -/
def parsePair (part : Str) : Option (Str × Str) :=
  if part.isEmpty then none
  else
    match splitFirst '=' part with
    | none => none
    | some (n, v) =>
      if v.isEmpty then none else some (unquotePlus n, unquotePlus v)

/-- Embeds `parse_qsl(qs)` with default arguments (separator `&`). -/
def parse_qsl (qs : Str) : List (Str × Str) :=
  (splitSep '&' qs).filterMap parsePair

/-- One step of the dict building in `parse_qs`: append the value to an
existing key's list, else append a new key (Python dicts preserve insertion
order). -/
def qsGroupAdd (acc : List (Str × List Str)) (kv : Str × Str) :
    List (Str × List Str) :=
  if acc.any (fun p => p.1 == kv.1) then
    acc.map (fun p => if p.1 == kv.1 then (p.1, p.2 ++ [kv.2]) else p)
  else acc ++ [(kv.1, [kv.2])]

/-- Embeds `parse_qs(qs)`: group the pairs of `parse_qsl` by key. -/
def parse_qs (qs : Str) : List (Str × List Str) :=
  (parse_qsl qs).foldl qsGroupAdd []

/-- Tracking query parameters removed by `normalise_url` (lines 33-46 of
`content_processing.py`). -/
def trackingParams : List Str :=
  [str "utm_source", str "utm_medium", str "utm_campaign", str "utm_term",
   str "utm_content", str "source", str "ref", str "fbclid", str "gclid",
   str "ocid", str "mc_cid", str "mc_eid"]

/-- Embeds `urlencode(d, doseq=True)`: one `k=v` field per value, keys and
values quoted with `quote_plus`, fields joined with `&`. -/
def urlencode (d : List (Str × List Str)) : Str :=
  joinSep [ '&' ]
    (d.flatMap fun p => p.2.map fun v => quotePlus p.1 ++ '=' :: quotePlus v)

/-- Embeds `urlunsplit`. -/
def urlunsplit (scheme netloc url query fragment : Str) : Str :=
  let url1 :=
    if !netloc.isEmpty || (!url.isEmpty && leadsWith (str "//") url) then
      str "//" ++ netloc ++
        (if !url.isEmpty && !leadsWith (str "/") url then '/' :: url else url)
    else url
  let url2 := if scheme.isEmpty then url1 else scheme ++ ':' :: url1
  let url3 := if query.isEmpty then url2 else url2 ++ '?' :: query
  if fragment.isEmpty then url3 else url3 ++ '#' :: fragment

/-- Embeds `ParseResult.geturl()` (`urlunparse`). -/
def pyGeturl (r : ParseR) : Str :=
  let u := if r.params.isEmpty then r.path else r.path ++ ';' :: r.params
  urlunsplit r.scheme r.netloc u r.query r.fragment

/-- Embeds `normalise_url(url)` (lines 16-63 of `content_processing.py`):
parse, drop tracking query parameters, lower-case scheme and netloc, drop
the fragment, reassemble; on a parse failure (the `except` branch) return
the input unchanged.  The model is total, so the only failure is the one
`urlsplit` itself raises (unbalanced bracket in the netloc). -/
def normalise_url (url : Str) : Str :=
  match pyUrlparse url with
  | none => url
  | some parsed =>
    let query_params := parse_qs parsed.query
    let filtered := query_params.filter (fun kv => !memStr kv.1 trackingParams)
    let newQuery := if filtered.isEmpty then [] else urlencode filtered
    pyGeturl
      { scheme := pyLower parsed.scheme, netloc := pyLower parsed.netloc,
        path := parsed.path, params := parsed.params, query := newQuery,
        fragment := [] }

/-- Embeds `get_url_hash(url)`: hash of the normalised URL (the `except`
branch is dead because `normalise_url` never raises). -/
def get_url_hash (url : Str) : Str := sha256hex (normalise_url url)

/-!
Embedding of `storage/storage_manager.py`.  Python dicts are modelled as
insertion-ordered association lists; the filesystem is a `Store` of files,
directories and the two in-memory deduplication indices, threaded
explicitly; every operation additionally returns the trace of mutating
filesystem calls it makes.
-/

/-- Python `k in d` for an insertion-ordered dict. -/
def dictContains {α : Type} (m : List (Str × α)) (k : Str) : Bool :=
  m.any (·.1 == k)

/-- Python `d.get(k)`. -/
def dictGet {α : Type} (m : List (Str × α)) (k : Str) : Option α :=
  (m.find? (·.1 == k)).map (·.2)

/-- Python `d.get(k, default)`. -/
def dictGetD {α : Type} (m : List (Str × α)) (k : Str) (d : α) : α :=
  (dictGet m k).getD d

/-- Python `d[k] = v`: overwrite in place, else append (insertion order). -/
def dictSet {α : Type} (m : List (Str × α)) (k : Str) (v : α) :
    List (Str × α) :=
  if dictContains m k then m.map (fun p => if p.1 == k then (k, v) else p)
  else m ++ [(k, v)]

/-- Python `d.update(patch)`. -/
def dictUpdate {α : Type} (m patch : List (Str × α)) : List (Str × α) :=
  patch.foldl (fun acc kv => dictSet acc kv.1 kv.2) m

/-- Metadata dicts: flat string-to-string maps, which is what the store
reads and writes for every record in this development. -/
abbrev Meta := List (Str × Str)

/-- Insertion step for sorting metadata pairs by key (the `sort_keys=True`
default of `yaml.dump`). -/
def insertByKey (kv : Str × Str) : Meta → Meta
  | [] => [kv]
  | h :: t => if lexLtB kv.1 h.1 then kv :: h :: t else h :: insertByKey kv t

/-- Keys sorted as `yaml.dump` emits them. -/
def sortPairs (m : Meta) : Meta := m.foldr insertByKey []

/-- One `key: value` line of the YAML dump. -/
def lineOf (kv : Str × Str) : Str := kv.1 ++ str ": " ++ kv.2

/-- Emits one `key: value\n` line per entry, in list order. -/
def dumpLines (l : Meta) : Str :=
  l.foldr (fun kv acc => lineOf kv ++ [ '\n' ] ++ acc) []

/-- Embeds `yaml.dump(metadata, default_flow_style=False)` for flat maps of
plain scalar strings (the only shape the store writes): one `key: value`
line per entry, keys sorted. -/
def yamlDump (m : Meta) : Str := dumpLines (sortPairs m)

/-- Parses one `key: value` line (`yaml.safe_load` on the flat plain-scalar
maps this store produces); lines without a `: ` are skipped. -/
def parseLine (line : Str) : Option (Str × Str) :=
  match findIdx (str ": ") line with
  | none => none
  | some i => some (line.take i, line.drop (i + 2))

/-- Embeds `yaml.safe_load` on a flat plain-scalar front-matter block. -/
def yamlParse (block : Str) : Meta := (splitSep '\n' block).filterMap parseLine

/-- File text written by the store: `---\n`, the YAML dump, `---\n\n`, the
body verbatim (lines 205-209 and 398-402 of `storage_manager.py`). -/
def mkFile (m : Meta) (body : Str) : Str :=
  str "---\n" ++ yamlDump m ++ str "---\n\n" ++ body

/-- Embeds the parsing part of `read_content` (lines 367-378): when the text
starts with `---` and `---` occurs again at or after index 3, the metadata
is parsed from the stripped slice between them and the body is the stripped
remainder; otherwise the whole text is the body with empty metadata. -/
def parseStoredFile (raw : Str) : Str × Meta :=
  if leadsWith (str "---") raw then
    match findIdx (str "---") (raw.drop 3) with
    | some e0 =>
      let e := e0 + 3
      let front := pyStrip ((raw.take e).drop 3)
      (pyStrip (raw.drop (e + 3)), yamlParse front)
    | none => (raw, [])
  else (raw, [])

/-- Paths relative to `data_dir`, as component lists. -/
abbrev FPath := List Str

/-- Mutating filesystem calls, recorded as a trace. -/
inductive FsEvent where
  | mkdirE : FPath → FsEvent
  | openWriteE : FPath → Str → FsEvent
  | renameE : FPath → FPath → FsEvent
  | removeE : FPath → FsEvent
  | rmdirE : FPath → FsEvent
deriving DecidableEq, Repr

/-- State of the storage manager: files with their text, existing
directories, and the two in-memory deduplication indices. -/
structure Store where
  files : List (FPath × Str)
  dirs : List FPath
  urlIndex : List (Str × Str)
  fpIndex : List (Str × Str)
deriving DecidableEq, Repr

/-- Store with no records, no directories and empty indices. -/
def emptyStore : Store := ⟨[], [], [], []⟩

/-- FPath-based directory existence. -/
def dirExists (s : Store) (p : FPath) : Bool := s.dirs.any (· == p)

/-- Creates one directory if absent (`os.makedirs(..., exist_ok=True)` for
one level). -/
def mkdirOne (s : Store) (p : FPath) : Store × List FsEvent :=
  if dirExists s p then (s, [])
  else ({ s with dirs := s.dirs ++ [p] }, [FsEvent.mkdirE p])

/-- Creates dir `base ++ [c]` then recursively the deeper levels, the order
`os.makedirs` uses. -/
def mkdirsFrom (s : Store) (base : FPath) : List Str → Store × List FsEvent
  | [] => (s, [])
  | c :: rest =>
    let r1 := mkdirOne s (base ++ [c])
    let r2 := mkdirsFrom r1.1 (base ++ [c]) rest
    (r2.1, r1.2 ++ r2.2)

/-- Embeds `os.makedirs(p, exist_ok=True)`: creates every missing ancestor
of `p` and `p` itself. -/
def mkdirs (s : Store) (p : FPath) : Store × List FsEvent := mkdirsFrom s [] p

/-- Reads a file's text, `none` when no file exists at the path. -/
def fsRead (s : Store) (p : FPath) : Option Str :=
  (s.files.find? (·.1 == p)).map (·.2)

/-- Embeds `open(p, "w")` followed by a full write: truncate-or-create. -/
def fsWrite (s : Store) (p : FPath) (text : Str) : Store :=
  if s.files.any (·.1 == p) then
    { s with files := s.files.map (fun f => if f.1 == p then (p, text) else f) }
  else { s with files := s.files ++ [(p, text)] }

/-- Name of `q` when it is a direct child of `p`. -/
def childName (p q : FPath) : Option Str :=
  if q.length == p.length + 1 && q.take p.length == p then
    (q.drop p.length).head?
  else none

/-- Embeds `os.listdir(p)`: names of direct file children, then direct
directory children, in creation order. -/
def listdir (s : Store) (p : FPath) : List Str :=
  (s.files.filterMap (fun f => childName p f.1)) ++ (s.dirs.filterMap (childName p))

/-- Directory of a content id in the content-addressed layout:
`<first-2-chars>/<id>` (`_get_content_path` with no `source_type`). -/
def contentDir (id : Str) : FPath := [id.take 2, id]

/-- File path of a record: `<first-2-chars>/<id>/<source_type>.md`. -/
def recordPath (id st : Str) : FPath := [id.take 2, id, st ++ str ".md"]

/-- Embeds `StorageManager.get_content` (lines 222-249): `_get_content_path`
creates the id's directory as a side effect, the (therefore always-true)
existence check passes, the first `.md` child is read and its parsed body
returned; errors propagate.  The error strings abbreviate the Python
messages. -/
def getContentResult (id : Str) (s1 : Store) : Except Str Str :=
  if !dirExists s1 (contentDir id) then
    Except.error (str "Content ID not found")
  else
    match (listdir s1 (contentDir id)).find? (fun n => trailsWith (str ".md") n) with
    | some name =>
      match fsRead s1 (contentDir id ++ [name]) with
      | some raw => Except.ok (parseStoredFile raw).1
      | none => Except.error (str "Error reading content")
    | none => Except.error (str "No content file found for ID")

def get_content (id : Str) (s : Store) :
    Except Str Str × Store × List FsEvent :=
  let m := mkdirs s (contentDir id)
  (getContentResult id m.1, m.1, m.2)

/-- Metadata stamping of `store_content` (lines 192-198): add
`content_id`, `url_hash`, `content_fingerprint` and, when absent,
`date_added` (`freshId` stands for `str(uuid.uuid4())` and `now` for
`datetime.now().isoformat()`). -/
def storeMeta (metadata : Meta) (freshId now url_hash fp : Str) : Meta :=
  let md1 := dictSet metadata (str "content_id") freshId
  let md2 := dictSet md1 (str "url_hash") url_hash
  let md3 := dictSet md2 (str "content_fingerprint") fp
  if dictContains md3 (str "date_added") then md3
  else dictSet md3 (str "date_added") now

/-- Embeds the record-creation tail of `store_content` (lines 189-220)
together with `_generate_file_path` (lines 125-143): stamp the metadata,
write the file directly at the generated path, update both indices.  The
`%Y-%m-%d` date used by the URL branch of `_generate_file_path` is the
first ten characters of the ISO timestamp. -/
def createRecord (content : Str) (metadata : Meta) (freshId now url_hash fp : Str)
    (s : Store) (ev0 : List FsEvent) : Except Str Str × Store × List FsEvent :=
  let md4 := storeMeta metadata freshId now url_hash fp
  let st := dictGetD md4 (str "source_type") []
  let gen :=
    if leadsWith (str "http") freshId then
      let today := now.take 10
      let m := mkdirs s [today]
      (([today, st ++ [ '_' ] ++ (get_url_hash freshId).take 10 ++ str ".md"] :
          FPath), m.1, m.2)
    else
      let m := mkdirs s (contentDir freshId)
      (recordPath freshId st, m.1, m.2)
  let fileP := gen.1
  let s1 := gen.2.1
  let ev1 := gen.2.2
  let text := mkFile md4 content
  let s2 := fsWrite s1 fileP text
  let s3 :=
    { s2 with
      urlIndex := dictSet s2.urlIndex url_hash freshId,
      fpIndex := dictSet s2.fpIndex fp freshId }
  (Except.ok freshId, s3, ev0 ++ ev1 ++ [FsEvent.openWriteE fileP text])

/-- Embeds `StorageManager.store_content` (lines 145-220): validate the
required metadata keys, return the indexed id on a URL-hash hit, else on a
fingerprint hit re-read the existing record and return its id when the
similarity strictly exceeds `0.85`, else create a new record.  The float
literal `0.85` and the float quotient are modelled exactly in `ℚ`. -/
def store_content (content : Str) (metadata : Meta) (freshId now : Str)
    (s : Store) : Except Str Str × Store × List FsEvent :=
  if !dictContains metadata (str "url") then
    (Except.error (str "Metadata must include url"), s, [])
  else if !dictContains metadata (str "source_type") then
    (Except.error (str "Metadata must include source_type"), s, [])
  else
    let url := dictGetD metadata (str "url") []
    let url_hash := get_url_hash url
    match dictGet s.urlIndex url_hash with
    | some existingId => (Except.ok existingId, s, [])
    | none =>
      let title := dictGetD metadata (str "title") []
      let fp := generate_content_fingerprint content title
      match dictGet s.fpIndex fp with
      | some dupId =>
        let g := get_content dupId s
        match g.1 with
        | Except.error e => (Except.error e, g.2.1, g.2.2)
        | Except.ok existingContent =>
          if ((17 : ℚ) / 20) < calculate_content_similarity content existingContent then
            (Except.ok dupId, g.2.1, g.2.2)
          else createRecord content metadata freshId now url_hash fp g.2.1 g.2.2
      | none => createRecord content metadata freshId now url_hash fp s []

/-- Embeds `StorageManager.update_metadata` (lines 383-407), which operates
on a file path: read, merge the patch into the metadata (patch keys
overwrite), rewrite the file in the same direct-write format. -/
def update_metadata_file (fileP : FPath) (patch : Meta) (s : Store) :
    Except Str Unit × Store × List FsEvent :=
  match fsRead s fileP with
  | none => (Except.error (str "Error reading content"), s, [])
  | some raw =>
    let (body, md) := parseStoredFile raw
    let merged := dictUpdate md patch
    let text := mkFile merged body
    (Except.ok (), fsWrite s fileP text, [FsEvent.openWriteE fileP text])

/-- Embeds the module-level `update_metadata(content_id, patch)` (lines
518-540): resolve the id's directory (creating it as a side effect of
`_get_content_path`), pick the first `.md` child, update that file; error
when no content file exists. -/
def update_metadata (id : Str) (patch : Meta) (s : Store) :
    Except Str Unit × Store × List FsEvent :=
  let m := mkdirs s (contentDir id)
  if !dirExists m.1 (contentDir id) then
    (Except.error (str "Content ID not found"), m.1, m.2)
  else
    match (listdir m.1 (contentDir id)).find? (fun n => trailsWith (str ".md") n) with
    | some name =>
      let u := update_metadata_file (contentDir id ++ [name]) patch m.1
      (u.1, u.2.1, m.2 ++ u.2.2)
    | none => (Except.error (str "No content file found for ID"), m.1, m.2)

/-- First readable `.md` child of a directory, as `list_content`'s inner
loop visits them: a child that is not a file (read error) is skipped with a
warning. -/
def firstReadable (s : Store) (dirP : FPath) : List Str → Option Meta
  | [] => none
  | n :: t =>
    if trailsWith (str ".md") n then
      match fsRead s (dirP ++ [n]) with
      | some raw => some (parseStoredFile raw).2
      | none => firstReadable s dirP t
    else firstReadable s dirP t

/-- Index update performed per record during `list_content` (lines 287-294):
set the index entry when the metadata key is present and truthy. -/
def indexAdd (idx : List (Str × Str)) (md : Meta) (key id : Str) :
    List (Str × Str) :=
  match dictGet md key with
  | some v => if v.isEmpty then idx else dictSet idx v id
  | none => idx

/-- Embeds `StorageManager.list_content` (lines 251-305): scan two-character
top-level directories not starting with a dot, scan their subdirectories
whose name starts with the prefix, read the first readable `.md` file of
each, collect id-to-metadata and refresh both indices. -/
def list_content (s : Store) : List (Str × Meta) × Store :=
  let tops :=
    (listdir s []).filter
      (fun n => dirExists s [n] && !leadsWith (str ".") n && n.length == 2)
  let step :=
    fun (acc : List (Str × Meta) × List (Str × Str) × List (Str × Str)) (pre : Str) =>
      ((listdir s [pre]).filter
          (fun n => dirExists s [pre, n] && leadsWith pre n)).foldl
        (fun acc2 idd =>
          match firstReadable s [pre, idd] (listdir s [pre, idd]) with
          | some md =>
            (dictSet acc2.1 idd md,
             indexAdd acc2.2.1 md (str "url_hash") idd,
             indexAdd acc2.2.2 md (str "content_fingerprint") idd)
          | none => acc2)
        acc
  let r := tops.foldl step ([], s.urlIndex, s.fpIndex)
  (r.1, { s with urlIndex := r.2.1, fpIndex := r.2.2 })

/-- Effect of the inner loops of `cleanup_old_files` on one matching
top-level directory `d`: `os.remove` succeeds exactly on the direct file
children (each counted once) and raises-and-is-swallowed on subdirectory
children; the final `os.rmdir` succeeds only if nothing remains under `d`. -/
def removeUnder (s : Store) (d : Str) : Nat × Store × List FsEvent :=
  let doomed := s.files.filter (fun f => f.1.length == 2 && f.1.headD [] == d)
  let kept := s.files.filter (fun f => !(f.1.length == 2 && f.1.headD [] == d))
  let emptyNow :=
    (kept.all (fun f => f.1.headD [] != d)) &&
      (s.dirs.all (fun p => !(decide (1 < p.length) && p.headD [] == d)))
  let s1 :=
    if emptyNow then
      { s with files := kept, dirs := s.dirs.filter (· ≠ [d]) }
    else { s with files := kept }
  (doomed.length, s1,
   doomed.map (fun f => FsEvent.removeE f.1) ++
     (if emptyNow then [FsEvent.rmdirE [d]] else []))

/-- Embeds `StorageManager.cleanup_old_files` (lines 444-484): iterate the
top-level entries, and for each directory whose name contains exactly two
dashes and is lexicographically below the cutoff date string, delete its
direct file children and remove it if now empty; return the number of files
deleted.  `cutoff` stands for
`(datetime.now() - timedelta(days=ttl_days)).strftime("%Y-%m-%d")`, the
only way `ttl_days` and the clock enter the function. -/
def cleanup_old_files (cutoff : Str) (s : Store) : Nat × Store × List FsEvent :=
  (listdir s []).foldl
    (fun acc n =>
      if dirExists acc.2.1 [n] && countChar '-' n == 2 && lexLtB n cutoff then
        let r := removeUnder acc.2.1 n
        (acc.1 + r.1, r.2.1, acc.2.2 ++ r.2.2)
      else acc)
    (0, s, [])

/-!
Lemma layer.  First: the canonical-sorted-list representation of Python
sets.  `sortedDedup` produces the strictly sorted duplicate-free list of
members, which is determined by membership alone.
-/

/-!
Concrete inputs used by counterexamples and witnesses.
-/

/-- Twenty distinct four-letter words (so 19/20 of them overlap with
`c2words19`). -/
def c2words20 : Str :=
  str "aaaa aaab aaac aaad aaae aaaf aaag aaah aaai aaaj aaak aaal aaam aaan aaao aaap aaaq aaar aaas aaat"

/-- The first nineteen of the twenty words: significant-word overlap with
`c2words20` is 19/20 = 0.95 ≥ 0.85. -/
def c2words19 : Str :=
  str "aaaa aaab aaac aaad aaae aaaf aaag aaah aaai aaaj aaak aaal aaam aaan aaao aaap aaaq aaar aaas"

/-- Metadata for the first C2 store call (URL `u1`). -/
def c2md1 : Meta := [(str "url", str "u1"), (str "source_type", str "h")]

/-- Metadata for the second C2 store call (different URL `u2`). -/
def c2md2 : Meta := [(str "url", str "u2"), (str "source_type", str "h")]

/-- First C2 store call: stores `c2words20` under URL `u1`. -/
def c2store1 : Except Str Str × Store × List FsEvent :=
  store_content c2words20 c2md1 (str "a1") (str "t1") emptyStore

/-- Second C2 store call: the near-duplicate `c2words19` under URL `u2`,
against the state left by the first call. -/
def c2store2 : Except Str Str × Store × List FsEvent :=
  store_content c2words19 c2md2 (str "b2") (str "t2") c2store1.2.1

/-- Checks that the second C2 call returned a fresh id and wrote a second
record instead of returning the first id. -/
def c2check : Bool :=
  match c2store1.1, c2store2.1 with
  | Except.ok id1, Except.ok id2 =>
    !(id1 == id2) && (c2store2.2.1.files.length == 2)
  | _, _ => false


/-- C4 experiment: store a body with leading whitespace. -/
def c4store : Except Str Str × Store × List FsEvent :=
  store_content (str " x") c2md1 (str "a1") (str "t1") emptyStore

/-- Recognizes a rename event in a filesystem trace. -/
def isRename : FsEvent → Bool
  | FsEvent.renameE _ _ => true
  | _ => false

/-- Keys the YAML round-trip model supports: nonempty, letters and
underscores only (no colon, newline, space or dash). -/
def simpleKey (k : Str) : Bool :=
  !k.isEmpty && k.all (fun c => isAlphaB c || c == '_')

/-- Values the YAML round-trip model supports: nonempty plain scalars with
no whitespace, quote-forcing character or dash. -/
def simpleValue (v : Str) : Bool :=
  !v.isEmpty &&
    v.all (fun c =>
      isAlphaB c || isDigitB c || c == '/' || c == '.' || c == ':' ||
        c == '~' || c == '_')

/-- Metadata whose dump parses back exactly (plain scalars, as the store
writes). -/
def simpleMeta (m : Meta) : Bool :=
  m.all (fun kv => simpleKey kv.1 && simpleValue kv.2)

/-- Pairwise-distinct keys, the shape of every Python dict. -/
def NoDupKeys (m : Meta) : Prop := List.Pairwise (fun p q => p.1 ≠ q.1) m

/-- Metadata of the concrete C9 record. -/
def c9md0 : Meta := [(str "url", str "u1"), (str "status", str "new")]

/-- Body of the concrete C9 record. -/
def c9body : Str := str "hello"

/-- Patch applied by the concrete C9 update. -/
def c9patch : Meta := [(str "status", str "done")]

/-- Store holding one record (id `a1`, file `h.md`) for the C9 witness. -/
def c9s : Store :=
  { files := [([str "a1", str "a1", str "h.md"], mkFile c9md0 c9body)],
    dirs := [[str "a1"], [str "a1", str "a1"]],
    urlIndex := [], fpIndex := [] }

/-- Same record but with a body carrying leading whitespace, for the C9
counterexample. -/
def c9sB : Store :=
  { files := [([str "a1", str "a1", str "h.md"], mkFile c9md0 (str " x"))],
    dirs := [[str "a1"], [str "a1", str "a1"]],
    urlIndex := [], fpIndex := [] }

/-- Metadata of the C5 record: `date_added` far in the past. -/
def c5md : Meta :=
  [(str "url", str "u"), (str "source_type", str "h"),
   (str "url_hash", str "u1h"), (str "content_fingerprint", str "f1"),
   (str "date_added", str "2000-01-01T00:00:00")]

/-- Store holding one content-addressed record (id `ab12`) whose
`date_added` lies far before any reasonable cutoff, with both indices
pointing at it. -/
def c5s : Store :=
  { files := [([str "ab", str "ab12", str "h.md"], mkFile c5md (str "old"))],
    dirs := [[str "ab"], [str "ab", str "ab12"]],
    urlIndex := [(str "u1h", str "ab12")],
    fpIndex := [(str "f1", str "ab12")] }

theorem memStr_iff (w : Str) (l : List Str) : memStr w l = true ↔ w ∈ l := by
  simp [memStr]

theorem charToNat_inj (a b : Char) (h : a.toNat = b.toNat) : a = b := by
  apply le_antisymm
  · exact (show a.toNat ≤ b.toNat from Nat.le_of_eq h)
  · exact (show b.toNat ≤ a.toNat from Nat.le_of_eq h.symm)

theorem charLtB_iff (a b : Char) : charLtB a b = true ↔ a.toNat < b.toNat := by
  simp [charLtB, Nat.blt_eq]

theorem charLtB_irrefl (c : Char) : charLtB c c = false := by
  simp [charLtB, ← Bool.not_eq_true, Nat.blt_eq]

theorem lexLtB_irrefl (a : Str) : lexLtB a a = false := by
  induction a with
  | nil => rfl
  | cons c t ih => simp [lexLtB, ih, charLtB_irrefl]

theorem lexLtB_trans (a b c : Str) (h1 : lexLtB a b = true)
    (h2 : lexLtB b c = true) : lexLtB a c = true := by
  induction a generalizing b c with
  | nil =>
    cases b with
    | nil => simp [lexLtB] at h1
    | cons y ys =>
      cases c with
      | nil => simp [lexLtB] at h2
      | cons z zs => rfl
  | cons x xs ih =>
    cases b with
    | nil => simp [lexLtB] at h1
    | cons y ys =>
      cases c with
      | nil => simp [lexLtB] at h2
      | cons z zs =>
        simp [lexLtB] at h1 h2 ⊢
        rcases h1 with h1 | ⟨he1, h1⟩
        · rcases h2 with h2 | ⟨he2, h2⟩
          · exact Or.inl (charLtB_iff x z |>.mpr
              (Nat.lt_trans (charLtB_iff x y |>.mp h1) (charLtB_iff y z |>.mp h2)))
          · exact Or.inl (he2 ▸ h1)
        · rcases h2 with h2 | ⟨he2, h2⟩
          · exact Or.inl (he1 ▸ h2)
          · exact Or.inr ⟨he1.trans he2, ih ys zs h1 h2⟩

theorem lexLtB_connex (a b : Str) (h : a ≠ b) :
    lexLtB a b = true ∨ lexLtB b a = true := by
  induction a generalizing b with
  | nil =>
    cases b with
    | nil => exact absurd rfl h
    | cons y ys => exact Or.inl rfl
  | cons x xs ih =>
    cases b with
    | nil => exact Or.inr rfl
    | cons y ys =>
      by_cases hxy : x = y
      · subst hxy
        have hne : xs ≠ ys := fun he => h (he ▸ rfl)
        rcases ih ys hne with h1 | h1
        · exact Or.inl (by simp [lexLtB, h1])
        · exact Or.inr (by simp [lexLtB, h1])
      · have : x.toNat ≠ y.toNat := fun he => hxy (charToNat_inj x y he)
        rcases Nat.lt_or_ge x.toNat y.toNat with h1 | h1
        · exact Or.inl (by simp [lexLtB]; exact Or.inl ((charLtB_iff x y).mpr h1))
        · have h2 : y.toNat < x.toNat := Nat.lt_of_le_of_ne h1 (Ne.symm this)
          exact Or.inr (by simp [lexLtB]; exact Or.inl ((charLtB_iff y x).mpr h2))

theorem lexLtB_asymm (a b : Str) (h1 : lexLtB a b = true)
    (h2 : lexLtB b a = true) : False := by
  have := lexLtB_trans a b a h1 h2
  rw [lexLtB_irrefl] at this
  exact Bool.false_ne_true this

/-- Strictly sorted (hence duplicate-free) list of strings. -/
abbrev ChainLt (l : List Str) : Prop :=
  List.Pairwise (fun a b => lexLtB a b = true) l

theorem mem_insertSorted (w x : Str) (l : List Str) :
    x ∈ insertSorted w l ↔ x = w ∨ x ∈ l := by
  induction l with
  | nil => simp [insertSorted]
  | cons h t ih =>
    by_cases h1 : lexLtB w h = true
    · simp [insertSorted, h1]
    · by_cases h2 : w = h
      · subst h2
        simp [insertSorted, h1]
      · have hbe : (w == h) = false := by simp [h2]
        simp [insertSorted, h1, hbe, ih]
        tauto

theorem insertSorted_chain (w : Str) (l : List Str) (h : ChainLt l) :
    ChainLt (insertSorted w l) := by
  induction l with
  | nil => simp [insertSorted, ChainLt]
  | cons a t ih =>
    obtain ⟨ha, ht⟩ := List.pairwise_cons.mp h
    by_cases h1 : lexLtB w a = true
    · have he : insertSorted w (a :: t) = w :: a :: t := by
        simp [insertSorted, h1]
      rw [he]
      refine List.pairwise_cons.mpr ⟨?_, List.pairwise_cons.mpr ⟨ha, ht⟩⟩
      intro b hb
      rcases List.mem_cons.mp hb with hb | hb
      · exact hb ▸ h1
      · exact lexLtB_trans w a b h1 (ha b hb)
    · by_cases h2 : w = a
      · subst h2
        have he : insertSorted w (w :: t) = w :: t := by
          simp [insertSorted, lexLtB_irrefl]
        rw [he]
        exact List.pairwise_cons.mpr ⟨ha, ht⟩
      · have hbe : (w == a) = false := by simp [h2]
        have he : insertSorted w (a :: t) = a :: insertSorted w t := by
          simp [insertSorted, h1, hbe]
        rw [he]
        have haw : lexLtB a w = true := by
          rcases lexLtB_connex w a h2 with hc | hc
          · exact absurd hc h1
          · exact hc
        refine List.pairwise_cons.mpr ⟨?_, ih ht⟩
        intro b hb
        rcases (mem_insertSorted w b t).mp hb with hb | hb
        · exact hb ▸ haw
        · exact ha b hb

theorem sortedDedup_chain (l : List Str) : ChainLt (sortedDedup l) := by
  induction l with
  | nil => simp [sortedDedup, ChainLt]
  | cons a t ih => exact insertSorted_chain a (sortedDedup t) ih

theorem mem_sortedDedup (x : Str) (l : List Str) :
    x ∈ sortedDedup l ↔ x ∈ l := by
  induction l with
  | nil => simp [sortedDedup]
  | cons a t ih =>
    show x ∈ insertSorted a (sortedDedup t) ↔ _
    rw [mem_insertSorted, ih]
    simp

theorem chainLt_unique (x y : List Str) (hx : ChainLt x) (hy : ChainLt y)
    (h : ∀ w, w ∈ x ↔ w ∈ y) : x = y := by
  induction x generalizing y with
  | nil =>
    cases y with
    | nil => rfl
    | cons b ys => exact absurd ((h b).mpr (List.mem_cons_self b ys)) (by simp)
  | cons a xs ih =>
    cases y with
    | nil => exact absurd ((h a).mp (List.mem_cons_self a xs)) (by simp)
    | cons b ys =>
      obtain ⟨hax, hxs⟩ := List.pairwise_cons.mp hx
      obtain ⟨hby, hys⟩ := List.pairwise_cons.mp hy
      have hano : a ∉ xs := fun hm => by
        have h2 := hax a hm
        rw [lexLtB_irrefl] at h2
        exact Bool.false_ne_true h2
      have hbno : b ∉ ys := fun hm => by
        have h2 := hby b hm
        rw [lexLtB_irrefl] at h2
        exact Bool.false_ne_true h2
      have hab : a = b := by
        by_contra hne
        have ha : a ∈ b :: ys := (h a).mp (List.mem_cons_self a xs)
        have hb : b ∈ a :: xs := (h b).mpr (List.mem_cons_self b ys)
        have ha2 : a ∈ ys := by
          rcases List.mem_cons.mp ha with he | hm
          · exact absurd he hne
          · exact hm
        have hb2 : b ∈ xs := by
          rcases List.mem_cons.mp hb with he | hm
          · exact absurd he.symm hne
          · exact hm
        exact lexLtB_asymm a b (hax b hb2) (hby a ha2)
      subst hab
      have htails : ∀ w, w ∈ xs ↔ w ∈ ys := by
        intro w
        constructor
        · intro hw
          have hw2 : w ∈ a :: ys := (h w).mp (List.mem_cons_of_mem a hw)
          rcases List.mem_cons.mp hw2 with he | hm
          · exact absurd (he ▸ hw) hano
          · exact hm
        · intro hw
          have hw2 : w ∈ a :: xs := (h w).mpr (List.mem_cons_of_mem a hw)
          rcases List.mem_cons.mp hw2 with he | hm
          · exact absurd (he ▸ hw) hbno
          · exact hm
      rw [ih ys hxs hys htails]

theorem sortedDedup_eq_of_mem_iff (l1 l2 : List Str)
    (h : ∀ w, w ∈ l1 ↔ w ∈ l2) : sortedDedup l1 = sortedDedup l2 :=
  chainLt_unique _ _ (sortedDedup_chain l1) (sortedDedup_chain l2)
    (fun w => by rw [mem_sortedDedup, mem_sortedDedup]; exact h w)

theorem chainLt_take (l : List Str) (n : Nat) (h : ChainLt l) :
    ChainLt (l.take n) :=
  List.Pairwise.sublist (List.take_sublist n l) h

theorem sortedDedup_of_chain (l : List Str) (h : ChainLt l) :
    sortedDedup l = l :=
  chainLt_unique _ _ (sortedDedup_chain l) h
    (fun w => mem_sortedDedup w l)

theorem extract_chain (t : Str) : ChainLt (extract_significant_words t) :=
  sortedDedup_chain _

theorem extract_eq_of_mem_iff (t1 t2 : Str)
    (h : ∀ w, w ∈ splitWs t1 ↔ w ∈ splitWs t2) :
    extract_significant_words t1 = extract_significant_words t2 := by
  unfold extract_significant_words
  have hinner :
      sortedDedup
          (((splitWs t1).filter
              (fun w => decide (4 ≤ w.length) && !memStr (pyLower w) stopwords)).map
            pyLower) =
        sortedDedup
          (((splitWs t2).filter
              (fun w => decide (4 ≤ w.length) && !memStr (pyLower w) stopwords)).map
            pyLower) := by
    apply sortedDedup_eq_of_mem_iff
    intro x
    simp only [List.mem_map, List.mem_filter]
    constructor
    · rintro ⟨w, ⟨hw, hp⟩, he⟩
      exact ⟨w, ⟨(h w).mp hw, hp⟩, he⟩
    · rintro ⟨w, ⟨hw, hp⟩, he⟩
      exact ⟨w, ⟨(h w).mpr hw, hp⟩, he⟩
  simp only [hinner]

theorem setInter_self (l : List Str) : setInter l l = l := by
  unfold setInter
  exact List.filter_eq_self.mpr (fun a ha => (memStr_iff a l).mpr ha)

theorem setUnion_self (l : List Str) (hc : ChainLt l) : setUnion l l = l := by
  unfold setUnion
  apply chainLt_unique _ _ (sortedDedup_chain _) hc
  intro w
  rw [mem_sortedDedup]
  simp

/-- C8: any two inputs with identical significant-word sets yield identical
fingerprints.  The significant-word set of an input is
`extract_significant_words` of the lower-cased `title + " " + body` text
(case-folded tokens of length at least 4 outside the stopword list), and the
hypotheses say the two sets have the same members (stated with
`List.all`/`memStr` so a witness can discharge them by evaluation); in
particular reordering or duplicating whitespace-separated words, or editing
stopwords and sub-4-letter tokens, never changes the fingerprint. -/
theorem c8_fingerprint_order_invariant (A tA B tB : Str)
    (h1 : (extract_significant_words (pyLower (tA ++ str " " ++ A))).all
        (fun w => memStr w
          (extract_significant_words (pyLower (tB ++ str " " ++ B)))) = true)
    (h2 : (extract_significant_words (pyLower (tB ++ str " " ++ B))).all
        (fun w => memStr w
          (extract_significant_words (pyLower (tA ++ str " " ++ A)))) = true) :
    generate_content_fingerprint A tA = generate_content_fingerprint B tB := by
  rw [List.all_eq_true] at h1 h2
  have hiff : ∀ w,
      w ∈ extract_significant_words (pyLower (tA ++ str " " ++ A)) ↔
        w ∈ extract_significant_words (pyLower (tB ++ str " " ++ B)) := by
    intro w
    constructor
    · intro hw
      exact (memStr_iff _ _).mp (h1 w hw)
    · intro hw
      exact (memStr_iff _ _).mp (h2 w hw)
  have hex : extract_significant_words (pyLower (tA ++ str " " ++ A)) =
      extract_significant_words (pyLower (tB ++ str " " ++ B)) :=
    chainLt_unique _ _ (extract_chain _) (extract_chain _) hiff
  simp only [generate_content_fingerprint]
  rw [hex]

/-- Witness for C8 at the spec's example, `fingerprint("b a c", "")` =
`fingerprint("a b c", "")`, and at a pair differing only in a stopword,
`fingerprint("and xxxx", "")` = `fingerprint("xxxx", "")`. -/
theorem c8_fingerprint_order_invariant_witness :
    generate_content_fingerprint (str "b a c") (str "") =
        generate_content_fingerprint (str "a b c") (str "") ∧
      generate_content_fingerprint (str "and xxxx") (str "") =
        generate_content_fingerprint (str "xxxx") (str "") :=
  ⟨c8_fingerprint_order_invariant (str "b a c") (str "") (str "a b c")
      (str "") (by decide) (by decide),
    c8_fingerprint_order_invariant (str "and xxxx") (str "") (str "xxxx")
      (str "") (by decide) (by decide)⟩

/-- C6 counterexample: two records with equal fingerprints whose similarity
is not `1.0`.  The fingerprint hashes title and body words together while
the similarity compares body words only, so swapping a word between title
and body preserves the fingerprint yet drops the similarity to `0`. -/
theorem c6_counterexample_fingerprint_match_low_similarity :
    generate_content_fingerprint (str "wwww") (str "xxxx") =
        generate_content_fingerprint (str "xxxx") (str "wwww") ∧
      calculate_content_similarity (str "wwww") (str "xxxx") ≠ 1 := by
  refine ⟨rfl, ?_⟩
  have hi : setInter (extract_significant_words (pyLower (str "wwww")))
      (extract_significant_words (pyLower (str "xxxx"))) = [] := by decide
  have hu : setUnion (extract_significant_words (pyLower (str "wwww")))
      (extract_significant_words (pyLower (str "xxxx"))) =
        [str "wwww", str "xxxx"] := by decide
  simp only [calculate_content_similarity, hi, hu]
  norm_num

theorem similarity_eq_one_of_eq_sets (A B : Str)
    (h1 : extract_significant_words (pyLower A) =
      extract_significant_words (pyLower B))
    (h2 : extract_significant_words (pyLower A) ≠ []) :
    calculate_content_similarity A B = 1 := by
  simp only [calculate_content_similarity]
  rw [← h1, setInter_self, setUnion_self _ (extract_chain _)]
  have hlen : (extract_significant_words (pyLower A)).length ≠ 0 := by
    intro h
    exact h2 (List.length_eq_zero.mp h)
  rw [if_neg hlen, div_self]
  exact Nat.cast_ne_zero.mpr hlen

/-- C6 amended: equal fingerprints do not force similarity `1.0` (the
counterexample), but whenever the two bodies themselves have equal and
nonempty significant-word sets — in particular for identical nonempty
bodies sharing a fingerprint — `calculate_content_similarity` is exactly
`1`. -/
theorem c6_similarity_one_on_equal_nonempty_sets (A B : Str)
    (h1 : extract_significant_words (pyLower A) =
      extract_significant_words (pyLower B))
    (h2 : extract_significant_words (pyLower A) ≠ []) :
    calculate_content_similarity A B = 1 :=
  similarity_eq_one_of_eq_sets A B h1 h2

/-- Witness for the amended C6: identical nonempty bodies give similarity
exactly `1`. -/
theorem c6_similarity_one_witness :
    calculate_content_similarity (str "wwww") (str "wwww") = 1 :=
  c6_similarity_one_on_equal_nonempty_sets (str "wwww") (str "wwww") rfl
    (by decide)

theorem mkdirOne_files (s : Store) (p : FPath) :
    (mkdirOne s p).1.files = s.files := by
  unfold mkdirOne
  split <;> rfl

theorem mkdirOne_urlIndex (s : Store) (p : FPath) :
    (mkdirOne s p).1.urlIndex = s.urlIndex := by
  unfold mkdirOne
  split <;> rfl

theorem mkdirOne_fpIndex (s : Store) (p : FPath) :
    (mkdirOne s p).1.fpIndex = s.fpIndex := by
  unfold mkdirOne
  split <;> rfl

theorem mkdirOne_dirExists (s : Store) (p : FPath) :
    dirExists (mkdirOne s p).1 p = true := by
  unfold mkdirOne
  split
  · next h => exact h
  · simp [dirExists]

theorem mkdirOne_dirs_cases (s : Store) (p : FPath) :
    (mkdirOne s p).1.dirs = s.dirs ∨ (mkdirOne s p).1.dirs = s.dirs ++ [p] := by
  unfold mkdirOne
  split
  · exact Or.inl rfl
  · exact Or.inr rfl

theorem mkdirs_pair (s : Store) (a b : Str) :
    (mkdirs s [a, b]).1 = (mkdirOne (mkdirOne s [a]).1 [a, b]).1 := rfl

theorem listdir_mkdirOne_irrelevant (s : Store) (p q : FPath)
    (h : childName q p = none) : listdir (mkdirOne s p).1 q = listdir s q := by
  unfold listdir
  rw [mkdirOne_files]
  rcases mkdirOne_dirs_cases s p with hd | hd <;> rw [hd]
  simp [List.filterMap_append, h]

theorem childName_one_two (a b c : Str) : childName [b, c] [a] = none := by
  simp [childName]

theorem childName_two_two (a b x y : Str) : childName [x, y] [a, b] = none := by
  simp [childName]

/-- C10: looking up an id with no stored record always errors, but first
creates the (empty) directory `<first-2-chars>/<id>`, so a failed lookup
mutates the directory tree whenever that directory did not already exist,
while leaving the files untouched. -/
theorem c10_get_content_miss_creates_dir (id : Str) (s : Store)
    (hno : (listdir s (contentDir id)).all
        (fun n => !trailsWith (str ".md") n) = true) :
    (get_content id s).1 = Except.error (str "No content file found for ID") ∧
      dirExists (get_content id s).2.1 (contentDir id) = true ∧
      (get_content id s).2.1.files = s.files ∧
      (dirExists s (contentDir id) = false → (get_content id s).2.1 ≠ s) := by
  have hpair : (mkdirs s (contentDir id)).1 =
      (mkdirOne (mkdirOne s [id.take 2]).1 (contentDir id)).1 := rfl
  have hfiles : (mkdirs s (contentDir id)).1.files = s.files := by
    rw [hpair, mkdirOne_files, mkdirOne_files]
  have hex : dirExists (mkdirs s (contentDir id)).1 (contentDir id) = true := by
    rw [hpair]
    exact mkdirOne_dirExists _ _
  have hld : listdir (mkdirs s (contentDir id)).1 (contentDir id) =
      listdir s (contentDir id) := by
    rw [hpair]
    simp only [contentDir]
    rw [listdir_mkdirOne_irrelevant _ _ _ (childName_two_two _ _ _ _)]
    rw [listdir_mkdirOne_irrelevant _ _ _ (childName_one_two _ _ _)]
  have hfind : (listdir (mkdirs s (contentDir id)).1 (contentDir id)).find?
      (fun n => trailsWith (str ".md") n) = none := by
    rw [hld]
    rw [List.find?_eq_none]
    intro x hx
    rw [List.all_eq_true] at hno
    simpa using hno x hx
  have hget : get_content id s =
      (Except.error (str "No content file found for ID"),
        (mkdirs s (contentDir id)).1, (mkdirs s (contentDir id)).2) := by
    simp only [get_content, getContentResult, hex, hfind, Bool.not_true,
      Bool.false_eq_true, if_false]
  rw [hget]
  refine ⟨rfl, hex, hfiles, ?_⟩
  intro hmiss heq
  rw [heq] at hex
  rw [hex] at hmiss
  exact absurd hmiss (by decide)

/-- Witness for C10 at a concrete unknown id on the empty store. -/
theorem c10_get_content_miss_witness :
    (get_content (str "zz99") emptyStore).1 =
        Except.error (str "No content file found for ID") ∧
      dirExists (get_content (str "zz99") emptyStore).2.1
          (contentDir (str "zz99")) = true ∧
      (get_content (str "zz99") emptyStore).2.1.files = emptyStore.files ∧
      (dirExists emptyStore (contentDir (str "zz99")) = false →
        (get_content (str "zz99") emptyStore).2.1 ≠ emptyStore) :=
  c10_get_content_miss_creates_dir (str "zz99") emptyStore (by decide)

theorem fsWrite_urlIndex (s : Store) (p : FPath) (t : Str) :
    (fsWrite s p t).urlIndex = s.urlIndex := by
  unfold fsWrite
  split <;> rfl

theorem fsWrite_fpIndex (s : Store) (p : FPath) (t : Str) :
    (fsWrite s p t).fpIndex = s.fpIndex := by
  unfold fsWrite
  split <;> rfl

theorem fsWrite_dirs (s : Store) (p : FPath) (t : Str) :
    (fsWrite s p t).dirs = s.dirs := by
  unfold fsWrite
  split <;> rfl

theorem mkdirOne_mono (s : Store) (p q : FPath) (h : dirExists s q = true) :
    dirExists (mkdirOne s p).1 q = true := by
  rcases mkdirOne_dirs_cases s p with hd | hd <;>
    simp [dirExists, hd] at h ⊢ <;> tauto

theorem mkdirOne_noop (s : Store) (p : FPath) (h : dirExists s p = true) :
    mkdirOne s p = (s, []) := by
  unfold mkdirOne
  rw [if_pos h]

theorem mkdirs_single_state (s : Store) (a : Str) :
    (mkdirs s [a]).1 = (mkdirOne s [a]).1 := rfl

theorem mkdirs_pair_files (s : Store) (a b : Str) :
    (mkdirs s [a, b]).1.files = s.files := by
  rw [mkdirs_pair, mkdirOne_files, mkdirOne_files]

theorem mkdirs_pair_urlIndex (s : Store) (a b : Str) :
    (mkdirs s [a, b]).1.urlIndex = s.urlIndex := by
  rw [mkdirs_pair, mkdirOne_urlIndex, mkdirOne_urlIndex]

theorem mkdirs_pair_fpIndex (s : Store) (a b : Str) :
    (mkdirs s [a, b]).1.fpIndex = s.fpIndex := by
  rw [mkdirs_pair, mkdirOne_fpIndex, mkdirOne_fpIndex]

theorem mkdirs_pair_exists_one (s : Store) (a b : Str) :
    dirExists (mkdirs s [a, b]).1 [a] = true := by
  rw [mkdirs_pair]
  exact mkdirOne_mono _ _ _ (mkdirOne_dirExists s [a])

theorem mkdirs_pair_exists_two (s : Store) (a b : Str) :
    dirExists (mkdirs s [a, b]).1 [a, b] = true := by
  rw [mkdirs_pair]
  exact mkdirOne_dirExists _ _

theorem mkdirs_pair_noop (s : Store) (a b : Str) (h1 : dirExists s [a] = true)
    (h2 : dirExists s [a, b] = true) : mkdirs s [a, b] = (s, []) := by
  have e1 : mkdirOne s [a] = (s, []) := mkdirOne_noop _ _ h1
  have e2 : mkdirOne s [a, b] = (s, []) := mkdirOne_noop _ _ h2
  simp [mkdirs, mkdirsFrom, e1, e2]

theorem get_content_state (id : Str) (s : Store) :
    (get_content id s).2.1 = (mkdirs s (contentDir id)).1 := rfl

theorem get_content_files (id : Str) (s : Store) :
    (get_content id s).2.1.files = s.files := by
  rw [get_content_state]
  show (mkdirs s [id.take 2, id]).1.files = s.files
  exact mkdirs_pair_files s _ _

theorem get_content_urlIndex (id : Str) (s : Store) :
    (get_content id s).2.1.urlIndex = s.urlIndex := by
  rw [get_content_state]
  exact mkdirs_pair_urlIndex s _ _

theorem get_content_fpIndex (id : Str) (s : Store) :
    (get_content id s).2.1.fpIndex = s.fpIndex := by
  rw [get_content_state]
  exact mkdirs_pair_fpIndex s _ _

theorem get_content_idem (id : Str) (s : Store) :
    get_content id (get_content id s).2.1 =
      ((get_content id s).1, (get_content id s).2.1, []) := by
  have h1 : dirExists (get_content id s).2.1 [id.take 2] = true := by
    rw [get_content_state]
    exact mkdirs_pair_exists_one s _ _
  have h2 : dirExists (get_content id s).2.1 [id.take 2, id] = true := by
    rw [get_content_state]
    exact mkdirs_pair_exists_two s _ _
  have hno : mkdirs (get_content id s).2.1 (contentDir id) =
      ((get_content id s).2.1, []) := mkdirs_pair_noop _ _ _ h1 h2
  show (getContentResult id (mkdirs (get_content id s).2.1 (contentDir id)).1,
      (mkdirs (get_content id s).2.1 (contentDir id)).1,
      (mkdirs (get_content id s).2.1 (contentDir id)).2) = _
  rw [hno]
  rfl

theorem createRecord_result (content : Str) (md : Meta)
    (fid now uh fp : Str) (s : Store) (ev : List FsEvent) :
    (createRecord content md fid now uh fp s ev).1 = Except.ok fid := rfl

theorem createRecord_urlIndex (content : Str) (md : Meta)
    (fid now uh fp : Str) (s : Store) (ev : List FsEvent) :
    (createRecord content md fid now uh fp s ev).2.1.urlIndex =
      dictSet s.urlIndex uh fid := by
  simp only [createRecord]
  split
  · rw [fsWrite_urlIndex]
    show dictSet (mkdirs s [now.take 10]).1.urlIndex uh fid = dictSet s.urlIndex uh fid
    rw [show (mkdirs s [now.take 10]).1.urlIndex = s.urlIndex from by
      rw [mkdirs_single_state, mkdirOne_urlIndex]]
  · rw [fsWrite_urlIndex]
    show dictSet (mkdirs s (contentDir fid)).1.urlIndex uh fid =
      dictSet s.urlIndex uh fid
    rw [show (mkdirs s (contentDir fid)).1.urlIndex = s.urlIndex from by
      exact mkdirs_pair_urlIndex s _ _]

theorem dictSet_cons_ne (p : Str × Str) (t : List (Str × Str))
    (k : Str) (v : Str) (h : (p.1 == k) = false) :
    dictSet (p :: t) k v = p :: dictSet t k v := by
  by_cases hc : dictContains t k = true
  · have h2 : dictContains (p :: t) k = true := by
      simp [dictContains, List.any_cons] at hc ⊢
      tauto
    simp only [dictSet, h2, if_true, List.map_cons, h, Bool.false_eq_true,
      if_false, hc]
  · have hcf : dictContains t k = false := by
      simp at hc
      exact hc
    have hne : p.1 ≠ k := by simpa using h
    have h2 : dictContains (p :: t) k = false := by
      simp [dictContains, List.any_cons] at hcf ⊢
      exact ⟨hne, hcf⟩
    simp only [dictSet, h2, hcf, Bool.false_eq_true, if_false, List.cons_append]

theorem dictGet_dictSet_self (m : List (Str × Str)) (k : Str) (v : Str) :
    dictGet (dictSet m k v) k = some v := by
  induction m with
  | nil => simp [dictSet, dictGet, dictContains]
  | cons p t ih =>
    by_cases h : (p.1 == k) = true
    · have h2 : dictContains (p :: t) k = true := by
        simp [dictContains, List.any_cons, h]
      simp only [dictSet, h2, if_true, List.map_cons, h, if_pos]
      simp [dictGet]
    · have hf : (p.1 == k) = false := by simpa using h
      rw [dictSet_cons_ne p t k v hf]
      simp only [dictGet, List.find?, hf]
      simpa [dictGet] using ih

/-- C1: a second `store_content` call with the same text and metadata, in
the same process, returns exactly the id the first successful call
returned, leaves the state unchanged and performs no filesystem call — so
repeated stores of one URL create at most one record per `url_hash`. -/
theorem c1_store_idempotent_by_url (content : Str) (md : Meta)
    (i1 n1 i2 n2 r1 : Str) (s0 : Store)
    (h1 : (store_content content md i1 n1 s0).1 = Except.ok r1) :
    store_content content md i2 n2 ((store_content content md i1 n1 s0).2.1) =
      (Except.ok r1, (store_content content md i1 n1 s0).2.1, []) := by
  cases hu : dictContains md (str "url") with
  | false =>
    simp only [store_content, hu, Bool.not_false, if_true] at h1
    exact absurd h1 (by simp)
  | true =>
  cases hst : dictContains md (str "source_type") with
  | false =>
    simp only [store_content, hu, hst, Bool.not_true, Bool.not_false,
      Bool.false_eq_true, if_false, if_true] at h1
    exact absurd h1 (by simp)
  | true =>
  cases hL : dictGet s0.urlIndex (get_url_hash (dictGetD md (str "url") [])) with
  | some e =>
    have hF : store_content content md i1 n1 s0 = (Except.ok e, s0, []) := by
      simp only [store_content, hu, hst, Bool.not_true, Bool.false_eq_true,
        if_false, hL]
    rw [hF] at h1 ⊢
    have he : e = r1 := by simpa using h1
    subst he
    simp only [store_content, hu, hst, Bool.not_true, Bool.false_eq_true,
      if_false, hL]
  | none =>
  cases hFp : dictGet s0.fpIndex
      (generate_content_fingerprint content (dictGetD md (str "title") [])) with
  | none =>
    have hF : store_content content md i1 n1 s0 =
        createRecord content md i1 n1
          (get_url_hash (dictGetD md (str "url") []))
          (generate_content_fingerprint content (dictGetD md (str "title") []))
          s0 [] := by
      simp only [store_content, hu, hst, Bool.not_true, Bool.false_eq_true,
        if_false, hL, hFp]
    rw [hF] at h1 ⊢
    rw [createRecord_result] at h1
    have he : i1 = r1 := by simpa using h1
    subst he
    simp only [store_content, hu, hst, Bool.not_true, Bool.false_eq_true,
      if_false]
    rw [createRecord_urlIndex, dictGet_dictSet_self]
  | some dupId =>
  cases hg : (get_content dupId s0).1 with
  | error e =>
    have hF : (store_content content md i1 n1 s0).1 = Except.error e := by
      simp only [store_content, hu, hst, Bool.not_true, Bool.false_eq_true,
        if_false, hL, hFp, hg]
    rw [hF] at h1
    exact absurd h1 (by simp)
  | ok c =>
    by_cases hsim :
        ((17 : ℚ) / 20) < calculate_content_similarity content c
    · have hF : store_content content md i1 n1 s0 =
          (Except.ok dupId, (get_content dupId s0).2.1,
            (get_content dupId s0).2.2) := by
        simp only [store_content, hu, hst, Bool.not_true, Bool.false_eq_true,
          if_false, hL, hFp, hg, hsim, if_true]
      rw [hF] at h1 ⊢
      have he : dupId = r1 := by simpa using h1
      subst he
      simp only [store_content, hu, hst, Bool.not_true, Bool.false_eq_true,
        if_false, get_content_urlIndex, get_content_fpIndex, hL, hFp]
      rw [show get_content dupId (get_content dupId s0).2.1 =
          ((get_content dupId s0).1, (get_content dupId s0).2.1, []) from
        get_content_idem dupId s0]
      simp only [hg, hsim, if_true]
    · have hF : store_content content md i1 n1 s0 =
          createRecord content md i1 n1
            (get_url_hash (dictGetD md (str "url") []))
            (generate_content_fingerprint content
              (dictGetD md (str "title") []))
            (get_content dupId s0).2.1 (get_content dupId s0).2.2 := by
        simp only [store_content, hu, hst, Bool.not_true, Bool.false_eq_true,
          if_false, hL, hFp, hg, hsim, if_false]
      rw [hF] at h1 ⊢
      rw [createRecord_result] at h1
      have he : i1 = r1 := by simpa using h1
      subst he
      simp only [store_content, hu, hst, Bool.not_true, Bool.false_eq_true,
        if_false]
      rw [createRecord_urlIndex, get_content_urlIndex, dictGet_dictSet_self]

/-- Witness for C1: a concrete double store of the same URL, first call
discharged by evaluation. -/
theorem c1_store_idempotent_witness :
    store_content [] [(str "url", str "u"), (str "source_type", str "h")]
        (str "b2") (str "t2")
        ((store_content [] [(str "url", str "u"), (str "source_type", str "h")]
            (str "a1") (str "t1") emptyStore).2.1) =
      (Except.ok (str "a1"),
        (store_content [] [(str "url", str "u"), (str "source_type", str "h")]
            (str "a1") (str "t1") emptyStore).2.1, []) :=
  c1_store_idempotent_by_url [] [(str "url", str "u"), (str "source_type", str "h")]
    (str "a1") (str "t1") (str "b2") (str "t2") (str "a1") emptyStore rfl

/-- C2 counterexample: `c2words19` overlaps `c2words20` in 19 of 20
significant words (Jaccard 0.95 ≥ 0.85), yet storing it under a second URL
returns a fresh id and writes a second record, because its fingerprint
differs so the similarity gate is never consulted. -/
theorem c2_counterexample_near_duplicate_not_merged :
    ((17 : ℚ) / 20) ≤ calculate_content_similarity c2words20 c2words19 ∧
      c2check = true := by
  constructor
  · have hi : (setInter (extract_significant_words (pyLower c2words20))
        (extract_significant_words (pyLower c2words19))).length = 19 := by
      decide
    have hu2 : (setUnion (extract_significant_words (pyLower c2words20))
        (extract_significant_words (pyLower c2words19))).length = 20 := by
      decide
    simp only [calculate_content_similarity, hi, hu2]
    norm_num
  · rfl

/-- C2 amended: the second call returns the first record's id only when the
new text's fingerprint (over title and body words) exactly equals the
stored record's fingerprint and the body similarity strictly exceeds 0.85;
in that case nothing is written.  Texts with at least 0.85 overlap but a
different significant-word set (the counterexample) get a fresh id. -/
theorem c2_amended_fingerprint_gate (content : Str) (md : Meta)
    (fid now dupId c : Str) (s : Store)
    (hu : dictContains md (str "url") = true)
    (hst : dictContains md (str "source_type") = true)
    (hL : dictGet s.urlIndex (get_url_hash (dictGetD md (str "url") [])) = none)
    (hFp : dictGet s.fpIndex
      (generate_content_fingerprint content (dictGetD md (str "title") [])) =
        some dupId)
    (hg : (get_content dupId s).1 = Except.ok c)
    (hsim : ((17 : ℚ) / 20) < calculate_content_similarity content c) :
    store_content content md fid now s =
        (Except.ok dupId, (get_content dupId s).2.1, (get_content dupId s).2.2) ∧
      (get_content dupId s).2.1.files = s.files := by
  refine ⟨?_, get_content_files dupId s⟩
  simp only [store_content, hu, hst, Bool.not_true, Bool.false_eq_true,
    if_false, hL, hFp, hg, hsim, if_true]

/-- Witness for the amended C2: the identical text under a second URL is
deduplicated to the first id with no write. -/
theorem c2_amended_fingerprint_gate_witness :
    store_content (str "wwww") c2md2 (str "b2") (str "t2")
          (store_content (str "wwww") c2md1 (str "a1") (str "t1")
              emptyStore).2.1 =
        (Except.ok (str "a1"),
          (get_content (str "a1")
              (store_content (str "wwww") c2md1 (str "a1") (str "t1")
                  emptyStore).2.1).2.1,
          (get_content (str "a1")
              (store_content (str "wwww") c2md1 (str "a1") (str "t1")
                  emptyStore).2.1).2.2) ∧
      (get_content (str "a1")
          (store_content (str "wwww") c2md1 (str "a1") (str "t1")
              emptyStore).2.1).2.1.files =
        (store_content (str "wwww") c2md1 (str "a1") (str "t1")
            emptyStore).2.1.files :=
  c2_amended_fingerprint_gate (str "wwww") c2md2 (str "b2") (str "t2")
    (str "a1") (str "wwww")
    (store_content (str "wwww") c2md1 (str "a1") (str "t1") emptyStore).2.1
    rfl rfl rfl rfl rfl
    (by
      rw [similarity_eq_one_of_eq_sets (str "wwww") (str "wwww") rfl
        (by decide)]
      norm_num)

theorem leadsWith_append_self (pat rest : Str) :
    leadsWith pat (pat ++ rest) = true := by
  induction pat with
  | nil => rfl
  | cons a ps ih => simp [leadsWith, ih]

theorem leadsWith_nil_iff (pat : Str) : leadsWith pat [] = true ↔ pat = [] := by
  cases pat <;> simp [leadsWith]

theorem leadsWith_decompose (pat x : Str) (h : leadsWith pat x = true) :
    x = pat ++ x.drop pat.length := by
  induction pat generalizing x with
  | nil => simp
  | cons a ps ih =>
    cases x with
    | nil => simp [leadsWith] at h
    | cons b t =>
      simp only [leadsWith, Bool.and_eq_true, beq_iff_eq] at h
      obtain ⟨hab, h2⟩ := h
      subst hab
      show a :: t = a :: (ps ++ (t.drop ps.length))
      rw [← ih t h2]

theorem findIdx_of_leads (pat l : Str) (h : leadsWith pat l = true) :
    findIdx pat l = some 0 := by
  cases l <;> simp [findIdx, h]

theorem findIdx_cons_not (pat : Str) (c : Char) (t : Str)
    (h : leadsWith pat (c :: t) = false) :
    findIdx pat (c :: t) = (findIdx pat t).map (· + 1) := by
  simp [findIdx, h]

theorem findIdx_cons_none_tail (pat : Str) (c : Char) (t : Str)
    (h : findIdx pat (c :: t) = none) : findIdx pat t = none := by
  cases hl : leadsWith pat (c :: t) with
  | true => rw [findIdx_of_leads _ _ hl] at h; exact absurd h (by simp)
  | false =>
    rw [findIdx_cons_not _ _ _ hl] at h
    exact Option.map_eq_none'.mp h

theorem findIdx_some_leads (pat l : Str) (i : Nat)
    (h : findIdx pat l = some i) : leadsWith pat (l.drop i) = true := by
  induction l generalizing i with
  | nil =>
    cases hl : leadsWith pat [] with
    | true => simp [findIdx, hl] at h; subst h; simpa using hl
    | false => simp [findIdx, hl] at h
  | cons c t ih =>
    cases hl : leadsWith pat (c :: t) with
    | true =>
      rw [findIdx_of_leads _ _ hl] at h
      have : i = 0 := by simpa using h.symm
      subst this
      simpa using hl
    | false =>
      rw [findIdx_cons_not _ _ _ hl] at h
      rcases Option.map_eq_some'.mp h with ⟨j, hj, hij⟩
      subst hij
      exact ih j hj

theorem countChar_append (c : Char) (x y : Str) :
    countChar c (x ++ y) = countChar c x + countChar c y := by
  simp [countChar, List.filter_append]

theorem countChar_le_of_findIdx_some (pat l : Str) (i : Nat) (c : Char)
    (h : findIdx pat l = some i) : countChar c pat ≤ countChar c l := by
  have h1 := findIdx_some_leads pat l i h
  have h2 := leadsWith_decompose pat (l.drop i) h1
  have h3 : l = l.take i ++ l.drop i := (List.take_append_drop i l).symm
  have h4 : countChar c l =
      countChar c (l.take i) +
        (countChar c pat + countChar c ((l.drop i).drop pat.length)) := by
    conv_lhs => rw [h3]
    rw [countChar_append]
    conv_lhs => rw [h2]
    rw [countChar_append]
  omega

theorem findIdx_none_of_count (pat l : Str) (c : Char)
    (h : countChar c l < countChar c pat) : findIdx pat l = none := by
  cases hf : findIdx pat l with
  | none => rfl
  | some i =>
    exact absurd (countChar_le_of_findIdx_some pat l i c hf) (not_le.mpr h)

theorem leadsWith_take (pat x : Str) (K : Nat) (h : leadsWith pat x = true)
    (hK : pat.length ≤ K) : leadsWith pat (x.take K) = true := by
  induction pat generalizing x K with
  | nil => rfl
  | cons a ps ih =>
    cases x with
    | nil => simp [leadsWith] at h
    | cons b t =>
      simp only [leadsWith, Bool.and_eq_true, beq_iff_eq] at h
      obtain ⟨hab, h2⟩ := h
      subst hab
      cases K with
      | zero => simp at hK
      | succ K2 =>
        rw [List.take_succ_cons]
        simp only [leadsWith, Bool.and_eq_true, beq_iff_eq]
        exact ⟨trivial, ih t K2 h2 (by simpa using hK)⟩

theorem findIdx_boundary (pat full : Str) (n : Nat) (hne : pat ≠ [])
    (hsafe : findIdx pat (full.take (n + (pat.length - 1))) = none)
    (hocc : leadsWith pat (full.drop n) = true) :
    findIdx pat full = some n := by
  induction n generalizing full with
  | zero =>
    rw [List.drop_zero] at hocc
    exact findIdx_of_leads pat full hocc
  | succ m ih =>
    cases full with
    | nil =>
      rw [List.drop_nil] at hocc
      exact absurd ((leadsWith_nil_iff pat).mp hocc) hne
    | cons c t =>
      have hlen1 : 1 ≤ pat.length := by
        cases pat with
        | nil => exact absurd rfl hne
        | cons p ps => simp
      have hnot : leadsWith pat (c :: t) = false := by
        cases hl : leadsWith pat (c :: t) with
        | false => rfl
        | true =>
          exfalso
          have htk : leadsWith pat ((c :: t).take (m + 1 + (pat.length - 1))) =
              true := leadsWith_take pat (c :: t) _ hl (by omega)
          rw [findIdx_of_leads _ _ htk] at hsafe
          exact absurd hsafe (by simp)
      rw [findIdx_cons_not _ _ _ hnot]
      have hsafe2 : findIdx pat (t.take (m + (pat.length - 1))) = none := by
        have he : (c :: t).take (m + 1 + (pat.length - 1)) =
            c :: t.take (m + (pat.length - 1)) := by
          rw [show m + 1 + (pat.length - 1) = (m + (pat.length - 1)) + 1 by omega]
          exact List.take_succ_cons
        rw [he] at hsafe
        exact findIdx_cons_none_tail _ _ _ hsafe
      rw [ih t hsafe2 (by simpa using hocc)]
      rfl

theorem pyStrip_cons_ws (c : Char) (l : Str) (h : pyIsSpace c = true) :
    pyStrip (c :: l) = pyStrip l := by
  simp [pyStrip, List.dropWhile_cons, h]

theorem countChar_zero_of_not_contains (c : Char) (l : Str)
    (h : l.contains c = false) : countChar c l = 0 := by
  have hm : c ∉ l := by simpa using h
  unfold countChar
  rw [List.length_eq_zero]
  rw [List.filter_eq_nil_iff]
  intro a ha hbeq
  exact hm ((beq_iff_eq.mp hbeq) ▸ ha)

theorem take_len_add (l₁ l₂ : Str) (n : Nat) :
    (l₁ ++ l₂).take (l₁.length + n) = l₁ ++ l₂.take n := by
  induction l₁ with
  | nil => simp
  | cons c t ih => simp [Nat.succ_add, ih]

theorem drop_len_add (l₁ l₂ : Str) (n : Nat) :
    (l₁ ++ l₂).drop (l₁.length + n) = l₂.drop n := by
  induction l₁ with
  | nil => simp
  | cons c t ih => simpa [Nat.succ_add] using ih

theorem parseStoredFile_mkFile (md : Meta) (body : Str)
    (hnd : (yamlDump md).contains '-' = false) :
    parseStoredFile (mkFile md body) =
      (pyStrip body, yamlParse (pyStrip ('\n' :: yamlDump md))) := by
  have hstr1 : (str "---\n") = ['-', '-', '-', '\n'] := rfl
  have hstr2 : (str "---\n\n") = ['-', '-', '-', '\n', '\n'] := rfl
  have hshape : mkFile md body =
      '-' :: '-' :: '-' :: '\n' ::
        (yamlDump md ++ ('-' :: '-' :: '-' :: '\n' :: '\n' :: body)) := by
    unfold mkFile
    rw [hstr1, hstr2]
    simp [List.append_assoc]
  have hshapeA : mkFile md body =
      (['-', '-', '-', '\n'] ++ yamlDump md) ++
        ('-' :: '-' :: '-' :: '\n' :: '\n' :: body) := by
    rw [hshape]
    simp [List.append_assoc]
  have hlead : leadsWith (str "---") (mkFile md body) = true := by
    rw [hshape]
    rfl
  have hdrop3 : (mkFile md body).drop 3 =
      '\n' :: (yamlDump md ++ ('-' :: '-' :: '-' :: '\n' :: '\n' :: body)) := by
    rw [hshape]
    rfl
  have h0 : countChar '-' (yamlDump md) = 0 :=
    countChar_zero_of_not_contains _ _ hnd
  have hfind : findIdx (str "---") ((mkFile md body).drop 3) =
      some (1 + (yamlDump md).length) := by
    rw [hdrop3]
    apply findIdx_boundary
    · simp [str]
    · apply findIdx_none_of_count _ _ '-'
      have ht : (('\n' ::
          (yamlDump md ++ ('-' :: '-' :: '-' :: '\n' :: '\n' :: body))).take
            (1 + (yamlDump md).length + (((str "---") : Str).length - 1))) =
          '\n' :: (yamlDump md ++ ['-', '-']) := by
        have h3 : ((str "---") : Str).length = 3 := rfl
        rw [show 1 + (yamlDump md).length + (((str "---") : Str).length - 1) =
          ((yamlDump md).length + 2) + 1 by rw [h3]; omega]
        rw [List.take_succ_cons]
        rw [take_len_add]
        rfl
      rw [ht]
      rw [show ('\n' :: (yamlDump md ++ ['-', '-'])) =
        ['\n'] ++ yamlDump md ++ ['-', '-'] by simp]
      rw [countChar_append, countChar_append, h0]
      simp [countChar, str]
    · rw [show (1 + (yamlDump md).length) = (yamlDump md).length + 1 by omega]
      rw [List.drop_succ_cons, List.drop_left]
      rfl
  have htake2 : ((mkFile md body).take (1 + (yamlDump md).length + 3)).drop 3 =
      '\n' :: yamlDump md := by
    rw [hshapeA]
    rw [show 1 + (yamlDump md).length + 3 =
      (['-', '-', '-', '\n'] ++ yamlDump md).length + 0 by simp; omega]
    rw [take_len_add]
    simp
  have hdropE : (mkFile md body).drop (1 + (yamlDump md).length + 3 + 3) =
      '\n' :: '\n' :: body := by
    rw [hshapeA]
    rw [show 1 + (yamlDump md).length + 3 + 3 =
      (['-', '-', '-', '\n'] ++ yamlDump md).length + 3 by simp; omega]
    rw [drop_len_add]
    rfl
  show (if leadsWith (str "---") (mkFile md body) = true then _ else _) = _
  rw [if_pos hlead]
  rw [hfind]
  show (pyStrip ((mkFile md body).drop (1 + (yamlDump md).length + 3 + 3)),
      yamlParse (pyStrip
        (((mkFile md body).take (1 + (yamlDump md).length + 3)).drop 3))) = _
  rw [htake2, hdropE]
  rw [pyStrip_cons_ws '\n' _ rfl, pyStrip_cons_ws '\n' _ rfl]

theorem recordPath_eq (fid st : Str) :
    recordPath fid st = contentDir fid ++ [st ++ str ".md"] := rfl

theorem trailsWith_append_self (suf x : Str) :
    trailsWith suf (x ++ suf) = true := by
  unfold trailsWith
  rw [List.reverse_append]
  exact leadsWith_append_self _ _

theorem childName_append_singleton (q : FPath) (n : Str) :
    childName q (q ++ [n]) = some n := by
  simp [childName]

theorem find?_append_none {α : Type} (p : α → Bool) (l₁ l₂ : List α)
    (h : l₁.find? p = none) : (l₁ ++ l₂).find? p = l₂.find? p := by
  induction l₁ with
  | nil => rfl
  | cons a t ih =>
    cases hp : p a with
    | true =>
      rw [List.find?_cons_of_pos _ hp] at h
      exact absurd h (by simp)
    | false =>
      have hp2 : ¬p a = true := by simp [hp]
      rw [List.find?_cons_of_neg _ hp2] at h
      rw [List.cons_append, List.find?_cons_of_neg _ hp2]
      exact ih h

theorem fsWrite_append (s : Store) (p : FPath) (t : Str)
    (h : ∀ f ∈ s.files, (f.1 == p) = false) :
    (fsWrite s p t).files = s.files ++ [(p, t)] := by
  unfold fsWrite
  have hany : s.files.any (·.1 == p) = false := by
    rw [← Bool.not_eq_true]
    simp only [List.any_eq_true]
    rintro ⟨f, hf, he⟩
    rw [h f hf] at he
    exact absurd he (by simp)
  rw [hany]
  simp

theorem createRecord_state (content : Str) (md : Meta)
    (fid now uh fp : Str) (s : Store) (ev0 : List FsEvent)
    (hhttp : leadsWith (str "http") fid = false) :
    (createRecord content md fid now uh fp s ev0).2.1 =
      { fsWrite (mkdirs s (contentDir fid)).1
          (recordPath fid
            (dictGetD (storeMeta md fid now uh fp) (str "source_type") []))
          (mkFile (storeMeta md fid now uh fp) content) with
        urlIndex := dictSet (mkdirs s (contentDir fid)).1.urlIndex uh fid,
        fpIndex := dictSet (mkdirs s (contentDir fid)).1.fpIndex fp fid } := by
  simp only [createRecord, hhttp, Bool.false_eq_true, if_false]
  rw [fsWrite_urlIndex, fsWrite_fpIndex]

theorem createRecord_trace (content : Str) (md : Meta)
    (fid now uh fp : Str) (s : Store) (ev0 : List FsEvent)
    (hhttp : leadsWith (str "http") fid = false) :
    (createRecord content md fid now uh fp s ev0).2.2 =
      ev0 ++ (mkdirs s (contentDir fid)).2 ++
        [FsEvent.openWriteE
          (recordPath fid
            (dictGetD (storeMeta md fid now uh fp) (str "source_type") []))
          (mkFile (storeMeta md fid now uh fp) content)] := by
  simp only [createRecord, hhttp, Bool.false_eq_true, if_false]

theorem mkdirs_pair_dirs_filterMap_none (s : Store) (a b : Str) (q : FPath)
    (h1 : ∀ d ∈ s.dirs, childName q d = none)
    (h2 : childName q [a] = none) (h3 : childName q [a, b] = none) :
    (mkdirs s [a, b]).1.dirs.filterMap (childName q) = [] := by
  have hbase : s.dirs.filterMap (childName q) = [] :=
    List.filterMap_eq_nil_iff.mpr h1
  rw [mkdirs_pair]
  rcases mkdirOne_dirs_cases (mkdirOne s [a]).1 [a, b] with hd | hd <;> rw [hd] <;>
    rcases mkdirOne_dirs_cases s [a] with he | he <;> rw [he] <;>
      simp [List.filterMap_append, hbase, h2, h3]

/-- C4 amended: a fresh store followed by `get_content` returns the body
with leading and trailing whitespace stripped (`read_content` applies
`.strip()` to the extracted body), so the round trip is exact only for
bodies with no leading or trailing whitespace; the stored file itself holds
the body verbatim with no guaranteed trailing newline. -/
theorem c4_get_after_store_returns_stripped_body (content : Str) (md : Meta)
    (fid now : Str) (s : Store)
    (hu : dictContains md (str "url") = true)
    (hst : dictContains md (str "source_type") = true)
    (hL : dictGet s.urlIndex
      (get_url_hash (dictGetD md (str "url") [])) = none)
    (hFp : dictGet s.fpIndex
      (generate_content_fingerprint content
        (dictGetD md (str "title") [])) = none)
    (hhttp : leadsWith (str "http") fid = false)
    (hnd : (yamlDump (storeMeta md fid now
      (get_url_hash (dictGetD md (str "url") []))
      (generate_content_fingerprint content
        (dictGetD md (str "title") [])))).contains '-' = false)
    (hnof : ∀ f ∈ s.files, childName (contentDir fid) f.1 = none)
    (hnod : ∀ d ∈ s.dirs, childName (contentDir fid) d = none) :
    (store_content content md fid now s).1 = Except.ok fid ∧
      (get_content fid (store_content content md fid now s).2.1).1 =
        Except.ok (pyStrip content) := by
  set uh := get_url_hash (dictGetD md (str "url") []) with huh
  set fp := generate_content_fingerprint content (dictGetD md (str "title") [])
    with hfp2
  set md4 := storeMeta md fid now uh fp with hmd4
  set st2 := dictGetD md4 (str "source_type") [] with hst2
  set pth := recordPath fid st2 with hpth
  set text := mkFile md4 content with htext
  have hstore : store_content content md fid now s =
      createRecord content md fid now uh fp s [] := by
    simp only [store_content, hu, hst, Bool.not_true, Bool.false_eq_true,
      if_false, hL, hFp]
  have hres : (store_content content md fid now s).1 = Except.ok fid := by
    rw [hstore]
    exact createRecord_result _ _ _ _ _ _ _ _
  refine ⟨hres, ?_⟩
  have hS : (store_content content md fid now s).2.1 =
      { fsWrite (mkdirs s (contentDir fid)).1 pth text with
        urlIndex := dictSet (mkdirs s (contentDir fid)).1.urlIndex uh fid,
        fpIndex := dictSet (mkdirs s (contentDir fid)).1.fpIndex fp fid } := by
    rw [hstore]
    exact createRecord_state _ _ _ _ _ _ _ _ hhttp
  rw [hS]
  set base := (mkdirs s (contentDir fid)).1 with hbase
  set X : Store :=
    { fsWrite base pth text with
      urlIndex := dictSet base.urlIndex uh fid,
      fpIndex := dictSet base.fpIndex fp fid } with hX
  have hfree : ∀ f ∈ s.files, (f.1 == pth) = false := by
    intro f hf
    cases he : f.1 == pth with
    | false => rfl
    | true =>
      exfalso
      have : f.1 = pth := beq_iff_eq.mp he
      have h2 := hnof f hf
      rw [this, hpth, recordPath_eq, childName_append_singleton] at h2
      exact absurd h2 (by simp)
  have hbfiles : base.files = s.files := by
    rw [hbase]
    exact mkdirs_pair_files s _ _
  have hXfiles : X.files = s.files ++ [(pth, text)] := by
    show (fsWrite base pth text).files = _
    rw [fsWrite_append base pth text (by rw [hbfiles]; exact hfree), hbfiles]
  have hXdirs : X.dirs = base.dirs := by
    show (fsWrite base pth text).dirs = base.dirs
    exact fsWrite_dirs _ _ _
  have hd1 : dirExists X [fid.take 2] = true := by
    unfold dirExists
    rw [hXdirs, hbase]
    exact mkdirs_pair_exists_one s _ _
  have hd2 : dirExists X (contentDir fid) = true := by
    unfold dirExists
    rw [hXdirs, hbase]
    exact mkdirs_pair_exists_two s _ _
  have hmk : mkdirs X (contentDir fid) = (X, []) :=
    mkdirs_pair_noop X _ _ hd1 hd2
  have hgc : (get_content fid X).1 = getContentResult fid X := by
    show getContentResult fid (mkdirs X (contentDir fid)).1 = _
    rw [hmk]
  rw [hgc]
  have hfilesFm : X.files.filterMap
      (fun f => childName (contentDir fid) f.1) = [st2 ++ str ".md"] := by
    rw [hXfiles, List.filterMap_append]
    rw [List.filterMap_eq_nil_iff.mpr hnof]
    rw [hpth, recordPath_eq]
    simp [childName_append_singleton]
  have hdirsFm : X.dirs.filterMap (childName (contentDir fid)) = [] := by
    rw [hXdirs, hbase]
    exact mkdirs_pair_dirs_filterMap_none s _ _ _ hnod
      (childName_one_two _ _ _) (childName_two_two _ _ _ _)
  have hld : listdir X (contentDir fid) = [st2 ++ str ".md"] := by
    unfold listdir
    rw [hfilesFm, hdirsFm]
    rfl
  have hfindmd : (listdir X (contentDir fid)).find?
      (fun n => trailsWith (str ".md") n) = some (st2 ++ str ".md") := by
    rw [hld]
    exact List.find?_cons_of_pos _ (trailsWith_append_self _ _)
  have hread : fsRead X pth = some text := by
    unfold fsRead
    rw [hXfiles]
    rw [find?_append_none _ _ _ (List.find?_eq_none.mpr (by
      intro f hf
      simp only [Bool.not_eq_true]
      exact hfree f hf))]
    simp
  show (if (!dirExists X (contentDir fid)) = true then _ else _) = _
  rw [hd2]
  simp only [Bool.not_true, Bool.false_eq_true, if_false]
  rw [hfindmd]
  show (match fsRead X (contentDir fid ++ [st2 ++ str ".md"]) with
    | some raw => Except.ok (parseStoredFile raw).1
    | none => Except.error (str "Error reading content")) =
      Except.ok (pyStrip content)
  rw [show contentDir fid ++ [st2 ++ str ".md"] = pth from by
    rw [hpth, recordPath_eq]]
  rw [hread]
  show Except.ok (parseStoredFile text).1 = Except.ok (pyStrip content)
  rw [htext, parseStoredFile_mkFile md4 content hnd]

/-- Witness for the amended C4 at a concrete fresh store. -/
theorem c4_get_after_store_witness :
    (store_content (str "body") c2md1 (str "a1") (str "t1") emptyStore).1 =
        Except.ok (str "a1") ∧
      (get_content (str "a1")
          (store_content (str "body") c2md1 (str "a1") (str "t1")
              emptyStore).2.1).1 =
        Except.ok (pyStrip (str "body")) :=
  c4_get_after_store_returns_stripped_body (str "body") c2md1 (str "a1")
    (str "t1") emptyStore rfl rfl rfl rfl rfl rfl (by decide) (by decide)

/-- C4 counterexample: storing `" x"` and reading it back returns `"x"`;
the leading space is lost, which is more than the allowed trailing-newline
difference, so `get(store(text)) == text` fails. -/
theorem c4_counterexample_leading_whitespace_lost :
    c4store.1 = Except.ok (str "a1") ∧
      (get_content (str "a1") c4store.2.1).1 = Except.ok (str "x") ∧
      (str "x") ≠ (str " x") ∧
      (str "x") ≠ (str " x") ++ [ '\n' ] ∧
      (str "x") ++ [ '\n' ] ≠ (str " x") := by
  refine ⟨rfl, rfl, by decide, by decide, by decide⟩

theorem mkdirOne_no_rename (s : Store) (p : FPath) :
    (mkdirOne s p).2.all (fun e => !isRename e) = true := by
  unfold mkdirOne
  split <;> simp [isRename]

theorem mkdirsFrom_no_rename (l : List Str) (base : FPath) (s : Store) :
    (mkdirsFrom s base l).2.all (fun e => !isRename e) = true := by
  induction l generalizing base s with
  | nil => rfl
  | cons c rest ih =>
    show ((mkdirOne s (base ++ [c])).2 ++
      (mkdirsFrom (mkdirOne s (base ++ [c])).1 (base ++ [c]) rest).2).all _ = true
    rw [List.all_append]
    rw [mkdirOne_no_rename, ih]
    rfl

/-- C3 counterexample: a concrete store call creates a record (the file
list becomes nonempty) yet its filesystem trace contains no rename at all,
so no temporary-file-plus-rename protocol happened. -/
theorem c3_counterexample_no_rename_on_write :
    (store_content (str "body2") c2md1 (str "a1") (str "t1")
        emptyStore).2.1.files ≠ [] ∧
      ((store_content (str "body2") c2md1 (str "a1") (str "t1")
          emptyStore).2.2.all (fun e => !isRename e)) = true := by
  exact ⟨by decide, rfl⟩

/-- C3 amended: record writes are direct.  A creating `store_content` call
emits exactly its `makedirs` events followed by a single `open(..., "w")`
write of the full file at the final record path — no temporary file, no
rename — and `update_metadata` rewrites the record with a single direct
write at the record's path. -/
theorem c3_store_writes_directly (content : Str) (md : Meta)
    (fid now : Str) (s : Store)
    (hu : dictContains md (str "url") = true)
    (hst : dictContains md (str "source_type") = true)
    (hL : dictGet s.urlIndex
      (get_url_hash (dictGetD md (str "url") [])) = none)
    (hFp : dictGet s.fpIndex
      (generate_content_fingerprint content
        (dictGetD md (str "title") [])) = none)
    (hhttp : leadsWith (str "http") fid = false) :
    (store_content content md fid now s).2.2 =
        (mkdirs s (contentDir fid)).2 ++
          [FsEvent.openWriteE
            (recordPath fid
              (dictGetD (storeMeta md fid now
                (get_url_hash (dictGetD md (str "url") []))
                (generate_content_fingerprint content
                  (dictGetD md (str "title") []))) (str "source_type") []))
            (mkFile (storeMeta md fid now
              (get_url_hash (dictGetD md (str "url") []))
              (generate_content_fingerprint content
                (dictGetD md (str "title") []))) content)] ∧
      ((store_content content md fid now s).2.2.all
        (fun e => !isRename e)) = true ∧
      (∀ fileP patch s2 raw, fsRead s2 fileP = some raw →
        (update_metadata_file fileP patch s2).2.2 =
          [FsEvent.openWriteE fileP
            (mkFile (dictUpdate (parseStoredFile raw).2 patch)
              (parseStoredFile raw).1)]) := by
  have hstore : store_content content md fid now s =
      createRecord content md fid now
        (get_url_hash (dictGetD md (str "url") []))
        (generate_content_fingerprint content (dictGetD md (str "title") []))
        s [] := by
    simp only [store_content, hu, hst, Bool.not_true, Bool.false_eq_true,
      if_false, hL, hFp]
  have htr : (store_content content md fid now s).2.2 =
      (mkdirs s (contentDir fid)).2 ++
        [FsEvent.openWriteE
          (recordPath fid
            (dictGetD (storeMeta md fid now
              (get_url_hash (dictGetD md (str "url") []))
              (generate_content_fingerprint content
                (dictGetD md (str "title") []))) (str "source_type") []))
          (mkFile (storeMeta md fid now
            (get_url_hash (dictGetD md (str "url") []))
            (generate_content_fingerprint content
              (dictGetD md (str "title") []))) content)] := by
    rw [hstore]
    rw [createRecord_trace _ _ _ _ _ _ _ _ hhttp]
    rfl
  refine ⟨htr, ?_, ?_⟩
  · rw [htr, List.all_append]
    have h1 : (mkdirs s (contentDir fid)).2.all (fun e => !isRename e) = true :=
      mkdirsFrom_no_rename _ _ _
    rw [h1]
    rfl
  · intro fileP patch s2 raw hr
    unfold update_metadata_file
    rw [hr]

/-- Witness for the amended C3: the concrete creating store call's trace
carries no rename. -/
theorem c3_store_writes_directly_witness :
    ((store_content (str "cc") c2md1 (str "a4") (str "t1")
        emptyStore).2.2.all (fun e => !isRename e)) = true :=
  (c3_store_writes_directly (str "cc") c2md1 (str "a4") (str "t1") emptyStore
    rfl rfl rfl rfl rfl).2.1

theorem insertByKey_perm (kv : Str × Str) (l : Meta) :
    (insertByKey kv l).Perm (kv :: l) := by
  induction l with
  | nil => simp [insertByKey]
  | cons h t ih =>
    by_cases hl : lexLtB kv.1 h.1 = true
    · simp [insertByKey, hl]
    · have he : insertByKey kv (h :: t) = h :: insertByKey kv t := by
        simp [insertByKey, hl]
      rw [he]
      exact ((ih.cons h).trans (List.Perm.swap kv h t))

theorem sortPairs_perm (m : Meta) : (sortPairs m).Perm m := by
  induction m with
  | nil => simp [sortPairs]
  | cons kv t ih =>
    show (insertByKey kv (sortPairs t)).Perm _
    exact (insertByKey_perm kv (sortPairs t)).trans (ih.cons kv)

theorem find?_append_some {α : Type} (p : α → Bool) (l₁ l₂ : List α) (x : α)
    (h : l₁.find? p = some x) : (l₁ ++ l₂).find? p = some x := by
  induction l₁ with
  | nil => simp [List.find?] at h
  | cons a t ih =>
    cases hp : p a with
    | true =>
      rw [List.find?_cons_of_pos _ hp] at h
      rw [List.cons_append, List.find?_cons_of_pos _ hp]
      exact h
    | false =>
      have hp2 : ¬p a = true := by simp [hp]
      rw [List.find?_cons_of_neg _ hp2] at h
      rw [List.cons_append, List.find?_cons_of_neg _ hp2]
      exact ih h

theorem noDupKeys_sortPairs (m : Meta) (h : NoDupKeys m) :
    NoDupKeys (sortPairs m) :=
  ((sortPairs_perm m).pairwise_iff (fun hne => Ne.symm hne)).mpr h

theorem dictGet_map_setfn (t : List (Str × Str)) (k v k2 : Str) (h : k ≠ k2) :
    dictGet (t.map (fun q => if q.1 == k then (k, v) else q)) k2 =
      dictGet t k2 := by
  induction t with
  | nil => rfl
  | cons q t2 ih =>
    rw [List.map_cons]
    by_cases hq : (q.1 == k2) = true
    · have hfq : (if q.1 == k then (k, v) else q) = q := by
        have hqk : (q.1 == k) = false := by
          cases hqk : q.1 == k with
          | false => rfl
          | true =>
            exfalso
            exact h ((beq_iff_eq.mp hqk) ▸ (beq_iff_eq.mp hq) ▸ rfl)
        simp [hqk]
      rw [hfq]
      simp only [dictGet, List.find?, hq]
    · have hqf : (q.1 == k2) = false := by simpa using hq
      have hfq : ((if q.1 == k then (k, v) else q).1 == k2) = false := by
        by_cases hqk : (q.1 == k) = true
        · simp only [hqk, if_true]
          simp [h]
        · have h2 : (q.1 == k) = false := by simpa using hqk
          simp [h2, hqf]
      simp only [dictGet, List.find?, hqf, hfq]
      simpa only [dictGet] using ih

theorem dictGet_dictSet_ne (m : List (Str × Str)) (k v k2 : Str)
    (h : k ≠ k2) : dictGet (dictSet m k v) k2 = dictGet m k2 := by
  by_cases hc : dictContains m k = true
  · have hset : dictSet m k v =
        m.map (fun q => if q.1 == k then (k, v) else q) := by
      simp [dictSet, hc]
    rw [hset]
    exact dictGet_map_setfn m k v k2 h
  · have hset : dictSet m k v = m ++ [(k, v)] := by
      have hcf : dictContains m k = false := by simpa using hc
      simp [dictSet, hcf]
    rw [hset]
    cases hg : m.find? (·.1 == k2) with
    | some e =>
      unfold dictGet
      rw [find?_append_some _ _ _ _ hg, hg]
    | none =>
      unfold dictGet
      rw [find?_append_none _ _ _ hg, hg]
      simp [List.find?, show (k == k2) = false from by simp [h]]

theorem dictGet_none_iff (l : List (Str × Str)) (k : Str) :
    dictGet l k = none ↔ ∀ p ∈ l, p.1 ≠ k := by
  unfold dictGet
  rw [Option.map_eq_none']
  rw [List.find?_eq_none]
  constructor
  · intro h p hp
    have h2 := h p hp
    simpa using h2
  · intro h p hp
    simpa using h p hp

theorem dictGet_some_iff (l : List (Str × Str)) (hn : NoDupKeys l)
    (k v : Str) : dictGet l k = some v ↔ (k, v) ∈ l := by
  induction l with
  | nil => simp [dictGet]
  | cons p t ih =>
    obtain ⟨hhead, htail⟩ := List.pairwise_cons.mp hn
    by_cases hp : p.1 = k
    · have hb : (p.1 == k) = true := beq_iff_eq.mpr hp
      simp only [dictGet, List.find?, hb, Option.map_some', Option.some.injEq]
      constructor
      · intro hv
        have he : (k, v) = p := by
          cases p with
          | mk a b =>
            simp only at hp hv
            rw [hp, hv]
        rw [he]
        exact List.mem_cons_self p t
      · intro hm
        rcases List.mem_cons.mp hm with he | hm2
        · rw [← he]
        · exact absurd hp (hhead (k, v) hm2)
    · have hb : (p.1 == k) = false := by simp [hp]
      simp only [dictGet, List.find?, hb]
      rw [show Option.map (fun x => x.2) (List.find? (fun x => x.1 == k) t) =
        dictGet t k from rfl]
      rw [ih htail]
      constructor
      · exact List.mem_cons_of_mem p
      · intro hm
        rcases List.mem_cons.mp hm with he | hm2
        · exact absurd (congrArg Prod.fst he).symm hp
        · exact hm2

theorem dictGet_sortPairs (m : Meta) (k : Str) (h : NoDupKeys m) :
    dictGet (sortPairs m) k = dictGet m k := by
  cases hg : dictGet m k with
  | some v =>
    rw [dictGet_some_iff _ (noDupKeys_sortPairs m h)]
    rw [(sortPairs_perm m).mem_iff]
    exact (dictGet_some_iff m h k v).mp hg
  | none =>
    rw [dictGet_none_iff]
    intro p hp
    exact (dictGet_none_iff m k).mp hg p ((sortPairs_perm m).mem_iff.mp hp)

theorem dictGet_dictUpdate_notmem (m patch : Meta) (k : Str)
    (h : ∀ p ∈ patch, p.1 ≠ k) :
    dictGet (dictUpdate m patch) k = dictGet m k := by
  induction patch generalizing m with
  | nil => rfl
  | cons p t ih =>
    show dictGet (dictUpdate (dictSet m p.1 p.2) t) k = _
    rw [ih (dictSet m p.1 p.2) (fun q hq => h q (List.mem_cons_of_mem p hq))]
    exact dictGet_dictSet_ne m p.1 p.2 k (h p (List.mem_cons_self p t))

theorem dictGet_dictUpdate_mem (m patch : Meta) (k v : Str)
    (hn : NoDupKeys patch) (h : (k, v) ∈ patch) :
    dictGet (dictUpdate m patch) k = some v := by
  induction patch generalizing m with
  | nil => simp at h
  | cons p t ih =>
    obtain ⟨hhead, htail⟩ := List.pairwise_cons.mp hn
    show dictGet (dictUpdate (dictSet m p.1 p.2) t) k = some v
    rcases List.mem_cons.mp h with he | hm
    · have hk : p.1 = k := by rw [← he]
      have hv : p.2 = v := by rw [← he]
      rw [dictGet_dictUpdate_notmem _ t k (fun q hq hqk => by
        exact hhead q hq (hk.trans hqk.symm))]
      rw [← hk, ← hv]
      exact dictGet_dictSet_self m p.1 p.2
    · exact ih (dictSet m p.1 p.2) htail hm

theorem pyIsSpace_elim (c : Char) (hs : pyIsSpace c = true) :
    c = ' ' ∨ c = '\t' ∨ c = '\n' ∨ c = '\x0d' ∨ c = '\x0b' ∨ c = '\x0c' := by
  simp [pyIsSpace] at hs
  tauto

theorem keyChar_not_space (c : Char) (h : (isAlphaB c || c == '_') = true) :
    pyIsSpace c = false := by
  cases hs : pyIsSpace c with
  | false => rfl
  | true =>
    exfalso
    rcases pyIsSpace_elim c hs with h1 | h1 | h1 | h1 | h1 | h1 <;>
      (subst h1; exact absurd h (by decide))

theorem valChar_not_space (c : Char)
    (h : (isAlphaB c || isDigitB c || c == '/' || c == '.' || c == ':' ||
      c == '~' || c == '_') = true) : pyIsSpace c = false := by
  cases hs : pyIsSpace c with
  | false => rfl
  | true =>
    exfalso
    rcases pyIsSpace_elim c hs with h1 | h1 | h1 | h1 | h1 | h1 <;>
      (subst h1; exact absurd h (by decide))

theorem ne_of_pred_ne (p : Char → Bool) (c x : Char) (h : p c = true)
    (hx : p x = false) : c ≠ x := by
  intro he
  subst he
  rw [h] at hx
  exact absurd hx (by simp)

theorem contains_eq_false_of_forall (l : Str) (x : Char)
    (h : ∀ c ∈ l, c ≠ x) : l.contains x = false := by
  cases hc : l.contains x with
  | false => rfl
  | true =>
    exfalso
    have hm : x ∈ l := by simpa using hc
    exact h x hm rfl

theorem head?_dropWhile_false (p : Char → Bool) (l : Str) (c : Char)
    (h : (l.dropWhile p).head? = some c) : p c = false := by
  induction l with
  | nil => simp [List.dropWhile] at h
  | cons a t ih =>
    rw [List.dropWhile_cons] at h
    by_cases hp : p a = true
    · rw [if_pos hp] at h
      exact ih h
    · rw [if_neg hp] at h
      rw [List.head?_cons] at h
      cases h
      simpa using hp

theorem dropWhile_eq_self_of_head (p : Char → Bool) (l : Str)
    (h : ∀ c, l.head? = some c → p c = false) : l.dropWhile p = l := by
  cases l with
  | nil => rfl
  | cons a t =>
    have ha := h a (by rw [List.head?_cons])
    rw [List.dropWhile_cons, if_neg (by simp [ha])]

theorem getLast?_cons_ne_nil {α : Type} (a : α) (t : List α) (h : t ≠ []) :
    (a :: t).getLast? = t.getLast? := by
  cases t with
  | nil => exact absurd rfl h
  | cons b r => simp [List.getLast?_cons_cons]

theorem getLast?_append_right {α : Type} (l₁ l₂ : List α) (h : l₂ ≠ []) :
    (l₁ ++ l₂).getLast? = l₂.getLast? := by
  induction l₁ with
  | nil => rfl
  | cons a t ih =>
    rw [List.cons_append, getLast?_cons_ne_nil a (t ++ l₂) (by
      intro he
      rcases List.append_eq_nil.mp he with ⟨h1, h2⟩
      exact h h2), ih]

theorem getLast?_dropWhile (p : Char → Bool) (l : Str)
    (h : l.dropWhile p ≠ []) : (l.dropWhile p).getLast? = l.getLast? := by
  induction l with
  | nil => simp [List.dropWhile] at h
  | cons a t ih =>
    rw [List.dropWhile_cons] at h ⊢
    by_cases hp : p a = true
    · rw [if_pos hp] at h ⊢
      have htne : t ≠ [] := by
        intro he
        rw [he] at h
        simp [List.dropWhile] at h
      rw [ih h, getLast?_cons_ne_nil a t htne]
    · rw [if_neg hp]

theorem pyStrip_eq_self (l : Str)
    (h1 : ∀ c, l.head? = some c → pyIsSpace c = false)
    (h2 : ∀ c, l.getLast? = some c → pyIsSpace c = false) :
    pyStrip l = l := by
  unfold pyStrip
  rw [dropWhile_eq_self_of_head _ _ h1]
  rw [dropWhile_eq_self_of_head _ _
    (fun c hc => h2 c (by rwa [List.head?_reverse] at hc))]
  exact List.reverse_reverse l

theorem pyStrip_idem (l : Str) : pyStrip (pyStrip l) = pyStrip l := by
  apply pyStrip_eq_self
  · intro c hc
    unfold pyStrip at hc
    rw [List.head?_reverse] at hc
    have hne : ((l.dropWhile pyIsSpace).reverse.dropWhile pyIsSpace) ≠ [] := by
      intro he
      rw [he] at hc
      simp at hc
    rw [getLast?_dropWhile _ _ hne] at hc
    rw [List.getLast?_reverse] at hc
    exact head?_dropWhile_false _ _ c hc
  · intro c hc
    unfold pyStrip at hc
    rw [List.getLast?_reverse] at hc
    exact head?_dropWhile_false _ _ c hc

theorem dumpLines_cons (kv : Str × Str) (t : Meta) :
    dumpLines (kv :: t) = lineOf kv ++ '\n' :: dumpLines t := by
  show (lineOf kv ++ ['\n']) ++ dumpLines t = _
  simp [List.append_assoc]

theorem dumpLines_append (a b : Meta) :
    dumpLines (a ++ b) = dumpLines a ++ dumpLines b := by
  induction a with
  | nil => rfl
  | cons kv t ih =>
    rw [List.cons_append, dumpLines_cons, dumpLines_cons, ih]
    simp [List.append_assoc]

theorem lineOf_eq (k v : Str) : lineOf (k, v) = k ++ ':' :: ' ' :: v := by
  show (k ++ str ": ") ++ v = _
  rw [show (str ": ") = [':', ' '] from rfl]
  simp [List.append_assoc]

theorem mem_lineOf (c : Char) (kv : Str × Str) (h : c ∈ lineOf kv) :
    c ∈ kv.1 ∨ c = ':' ∨ c = ' ' ∨ c ∈ kv.2 := by
  obtain ⟨k, v⟩ := kv
  rw [lineOf_eq] at h
  rcases List.mem_append.mp h with h1 | h1
  · exact Or.inl h1
  · rcases List.mem_cons.mp h1 with he | h1
    · exact Or.inr (Or.inl he)
    · rcases List.mem_cons.mp h1 with he | h1
      · exact Or.inr (Or.inr (Or.inl he))
      · exact Or.inr (Or.inr (Or.inr h1))

theorem simpleKey_elim (k : Str) (h : simpleKey k = true) :
    k ≠ [] ∧ ∀ c ∈ k, (isAlphaB c || c == '_') = true := by
  unfold simpleKey at h
  rw [Bool.and_eq_true] at h
  obtain ⟨h1, h2⟩ := h
  constructor
  · intro he
    subst he
    simp at h1
  · intro c hc
    have hc2 := List.all_eq_true.mp h2 c hc
    simpa using hc2

theorem simpleValue_elim (v : Str) (h : simpleValue v = true) :
    v ≠ [] ∧ ∀ c ∈ v,
      (isAlphaB c || isDigitB c || c == '/' || c == '.' || c == ':' ||
        c == '~' || c == '_') = true := by
  unfold simpleValue at h
  rw [Bool.and_eq_true] at h
  obtain ⟨h1, h2⟩ := h
  constructor
  · intro he
    subst he
    simp at h1
  · intro c hc
    have hc2 := List.all_eq_true.mp h2 c hc
    simpa using hc2

theorem findIdx_colon_space (k v : Str) (hsp : k.contains ' ' = false) :
    findIdx (str ": ") (k ++ ':' :: ' ' :: v) = some k.length := by
  have hlen : ((str ": ") : Str).length - 1 = 1 := rfl
  apply findIdx_boundary
  · intro he
    exact absurd (congrArg List.length he) (by decide)
  · rw [hlen]
    rw [take_len_add]
    apply findIdx_none_of_count _ _ ' '
    rw [show ((':' :: ' ' :: v).take 1) = [':'] from rfl]
    rw [countChar_append]
    rw [countChar_zero_of_not_contains _ _ hsp]
    decide
  · rw [List.drop_left]
    rw [show (str ": ") = [':', ' '] from rfl]
    exact leadsWith_append_self [':', ' '] v

theorem parseLine_lineOf (k v : Str) (hk : simpleKey k = true)
    (hv : simpleValue v = true) : parseLine (lineOf (k, v)) = some (k, v) := by
  obtain ⟨hkne, hkall⟩ := simpleKey_elim k hk
  have hsp : k.contains ' ' = false :=
    contains_eq_false_of_forall k ' '
      (fun c hc =>
        ne_of_pred_ne (fun d => isAlphaB d || d == '_') c ' '
          (hkall c hc) (by decide))
  rw [lineOf_eq]
  unfold parseLine
  rw [findIdx_colon_space k v hsp]
  show some ((k ++ ':' :: ' ' :: v).take k.length,
      (k ++ ':' :: ' ' :: v).drop (k.length + 2)) = some (k, v)
  rw [List.take_left, drop_len_add]
  rfl

theorem splitSep_not_mem (c : Char) (x : Str) (h : c ∉ x) :
    splitSep c x = [x] := by
  induction x with
  | nil => rfl
  | cons a t ih =>
    have h1 : c ≠ a := fun he => h (by simp [he])
    have hne : (a == c) = false := by
      simp only [beq_eq_false_iff_ne]
      exact fun he => h1 he.symm
    have ht : c ∉ t := fun hm => h (List.mem_cons_of_mem a hm)
    simp [splitSep, hne, ih ht]

theorem splitSep_append_cons (c : Char) (x y : Str) (h : c ∉ x) :
    splitSep c (x ++ c :: y) = x :: splitSep c y := by
  induction x with
  | nil => simp [splitSep]
  | cons a t ih =>
    have h1 : c ≠ a := fun he => h (by simp [he])
    have hne : (a == c) = false := by
      simp only [beq_eq_false_iff_ne]
      exact fun he => h1 he.symm
    have ht : c ∉ t := fun hm => h (List.mem_cons_of_mem a hm)
    rw [List.cons_append]
    simp [splitSep, hne, ih ht]

theorem nl_not_mem_lineOf (kv : Str × Str) (hk : simpleKey kv.1 = true)
    (hv : simpleValue kv.2 = true) : '\n' ∉ lineOf kv := by
  intro hm
  rcases mem_lineOf _ _ hm with h1 | h1 | h1 | h1
  · exact absurd ((simpleKey_elim _ hk).2 '\n' h1) (by decide)
  · exact absurd h1 (by decide)
  · exact absurd h1 (by decide)
  · exact absurd ((simpleValue_elim _ hv).2 '\n' h1) (by decide)

theorem dash_not_mem_lineOf (kv : Str × Str) (hk : simpleKey kv.1 = true)
    (hv : simpleValue kv.2 = true) : '-' ∉ lineOf kv := by
  intro hm
  rcases mem_lineOf _ _ hm with h1 | h1 | h1 | h1
  · exact absurd ((simpleKey_elim _ hk).2 '-' h1) (by decide)
  · exact absurd h1 (by decide)
  · exact absurd h1 (by decide)
  · exact absurd ((simpleValue_elim _ hv).2 '-' h1) (by decide)

theorem simpleMeta_mem (m : Meta) (h : simpleMeta m = true) (kv : Str × Str)
    (hm : kv ∈ m) : simpleKey kv.1 = true ∧ simpleValue kv.2 = true := by
  unfold simpleMeta at h
  have h2 := List.all_eq_true.mp h kv hm
  simpa [Bool.and_eq_true] using h2

theorem splitSep_dumpLines_concat (l : Meta) (kv : Str × Str)
    (hl : ∀ p ∈ l, '\n' ∉ lineOf p) (hkv : '\n' ∉ lineOf kv) :
    splitSep '\n' (dumpLines l ++ lineOf kv) =
      l.map lineOf ++ [lineOf kv] := by
  induction l with
  | nil =>
    show splitSep '\n' (lineOf kv) = [lineOf kv]
    exact splitSep_not_mem _ _ hkv
  | cons p t ih =>
    rw [dumpLines_cons]
    rw [List.append_assoc, List.cons_append]
    rw [splitSep_append_cons _ _ _ (hl p (List.mem_cons_self p t))]
    rw [ih (fun q hq => hl q (List.mem_cons_of_mem p hq))]
    simp

theorem filterMap_parseLine_map (l : Meta) (h : simpleMeta l = true) :
    (l.map lineOf).filterMap parseLine = l := by
  induction l with
  | nil => rfl
  | cons kv t ih =>
    obtain ⟨hk, hv⟩ := simpleMeta_mem _ h kv (List.mem_cons_self kv t)
    have ht : simpleMeta t = true := by
      unfold simpleMeta at h ⊢
      rw [List.all_cons, Bool.and_eq_true] at h
      exact h.2
    have hp : parseLine (lineOf kv) = some kv := by
      obtain ⟨k, v⟩ := kv
      exact parseLine_lineOf k v hk hv
    rw [List.map_cons, List.filterMap_cons_some hp, ih ht]

theorem head?_append_left {α : Type} (l₁ l₂ : List α) (c : α)
    (h : (l₁ ++ l₂).head? = some c) (hne : l₁ ≠ []) : l₁.head? = some c := by
  cases l₁ with
  | nil => exact absurd rfl hne
  | cons a t =>
    rw [List.cons_append, List.head?_cons] at h
    rw [List.head?_cons]
    exact h

theorem lineOf_ne_nil (kv : Str × Str) : lineOf kv ≠ [] := by
  obtain ⟨k, v⟩ := kv
  rw [lineOf_eq]
  intro he
  rcases List.append_eq_nil.mp he with ⟨h1, h2⟩
  exact absurd h2 (by simp)

theorem mem_of_getLast? {α : Type} (l : List α) (c : α)
    (h : l.getLast? = some c) : c ∈ l := by
  induction l with
  | nil => simp at h
  | cons a t ih =>
    cases t with
    | nil =>
      simp at h
      simp [h]
    | cons b r =>
      rw [getLast?_cons_ne_nil a (b :: r) (by simp)] at h
      exact List.mem_cons_of_mem a (ih h)

theorem head?_lineOf (kv : Str × Str) (hk : simpleKey kv.1 = true) :
    ∀ c, (lineOf kv).head? = some c → pyIsSpace c = false := by
  obtain ⟨k, v⟩ := kv
  intro c hc
  obtain ⟨hkne, hkall⟩ := simpleKey_elim k hk
  rw [lineOf_eq] at hc
  cases k with
  | nil => exact absurd rfl hkne
  | cons a t =>
    rw [List.cons_append, List.head?_cons] at hc
    rw [← Option.some.inj hc]
    exact keyChar_not_space a (hkall a (List.mem_cons_self a t))

theorem getLast?_lineOf (kv : Str × Str) (hv : simpleValue kv.2 = true) :
    ∀ c, (lineOf kv).getLast? = some c → pyIsSpace c = false := by
  obtain ⟨k, v⟩ := kv
  intro c hc
  obtain ⟨hvne, hvall⟩ := simpleValue_elim v hv
  rw [lineOf_eq] at hc
  rw [getLast?_append_right k _ (by simp)] at hc
  rw [getLast?_cons_ne_nil _ _ (by simp)] at hc
  rw [getLast?_cons_ne_nil _ _ hvne] at hc
  exact valChar_not_space c (hvall c (mem_of_getLast? v c hc))

theorem head?_dumpLines_concat (l : Meta) (kv : Str × Str)
    (h : simpleMeta (l ++ [kv]) = true) :
    ∀ c, (dumpLines l ++ lineOf kv).head? = some c → pyIsSpace c = false := by
  intro c hc
  cases l with
  | nil =>
    obtain ⟨hk, hv⟩ := simpleMeta_mem _ h kv (by simp)
    exact head?_lineOf kv hk c hc
  | cons p t =>
    obtain ⟨hkp, hvp⟩ := simpleMeta_mem _ h p (by simp)
    rw [dumpLines_cons] at hc
    rw [List.append_assoc] at hc
    exact head?_lineOf p hkp c (head?_append_left _ _ _ hc (lineOf_ne_nil p))

theorem getLast?_dumpLines_concat (l : Meta) (kv : Str × Str)
    (h : simpleMeta (l ++ [kv]) = true) :
    ∀ c, (dumpLines l ++ lineOf kv).getLast? = some c →
      pyIsSpace c = false := by
  intro c hc
  obtain ⟨hk, hv⟩ := simpleMeta_mem _ h kv (by simp)
  rw [getLast?_append_right _ _ (lineOf_ne_nil kv)] at hc
  exact getLast?_lineOf kv hv c hc

theorem dumpLines_concat_ne_nil (l : Meta) (kv : Str × Str) :
    dumpLines l ++ lineOf kv ≠ [] := by
  intro he
  rcases List.append_eq_nil.mp he with ⟨h1, h2⟩
  exact lineOf_ne_nil kv h2

theorem pyStrip_wrap (E : Str)
    (h1 : ∀ c, E.head? = some c → pyIsSpace c = false)
    (h2 : ∀ c, E.getLast? = some c → pyIsSpace c = false)
    (hne : E ≠ []) :
    pyStrip (E ++ ['\n']) = E := by
  unfold pyStrip
  have hd : (E ++ ['\n']).dropWhile pyIsSpace = E ++ ['\n'] := by
    apply dropWhile_eq_self_of_head
    intro c hc
    cases E with
    | nil => exact absurd rfl hne
    | cons a t =>
      rw [List.cons_append, List.head?_cons] at hc
      rw [← Option.some.inj hc]
      exact h1 a (by rw [List.head?_cons])
  rw [hd]
  rw [List.reverse_append]
  rw [show (['\n'] : Str).reverse = ['\n'] from rfl]
  rw [show (['\n'] : Str) ++ E.reverse = '\n' :: E.reverse from rfl]
  rw [List.dropWhile_cons, if_pos (by decide)]
  rw [dropWhile_eq_self_of_head _ _
    (fun c hc => h2 c (by rwa [List.head?_reverse] at hc))]
  exact List.reverse_reverse E

theorem pyStrip_dumpLines_concat (l : Meta) (kv : Str × Str)
    (h : simpleMeta (l ++ [kv]) = true) :
    pyStrip ('\n' :: dumpLines (l ++ [kv])) = dumpLines l ++ lineOf kv := by
  rw [pyStrip_cons_ws '\n' _ (by decide)]
  rw [dumpLines_append l [kv]]
  rw [show dumpLines [kv] = lineOf kv ++ ['\n'] from by
    rw [dumpLines_cons]
    rfl]
  rw [← List.append_assoc]
  exact pyStrip_wrap _ (head?_dumpLines_concat l kv h)
    (getLast?_dumpLines_concat l kv h) (dumpLines_concat_ne_nil l kv)

theorem yamlParse_strip_dumpLines (l : Meta) (h : simpleMeta l = true) :
    yamlParse (pyStrip ('\n' :: dumpLines l)) = l := by
  rcases List.eq_nil_or_concat l with rfl | ⟨l2, kv, rfl⟩
  · decide
  · rw [List.concat_eq_append] at h ⊢
    rw [pyStrip_dumpLines_concat l2 kv h]
    unfold yamlParse
    rw [splitSep_dumpLines_concat l2 kv
      (fun p hp => nl_not_mem_lineOf p (simpleMeta_mem _ h p (by simp [hp])).1
        (simpleMeta_mem _ h p (by simp [hp])).2)
      (nl_not_mem_lineOf kv (simpleMeta_mem _ h kv (by simp)).1
        (simpleMeta_mem _ h kv (by simp)).2)]
    rw [show l2.map lineOf ++ [lineOf kv] = (l2 ++ [kv]).map lineOf from by
      simp]
    exact filterMap_parseLine_map _ h

theorem simpleMeta_of_perm (a b : Meta) (hp : a.Perm b)
    (h : simpleMeta a = true) : simpleMeta b = true := by
  unfold simpleMeta at h ⊢
  rw [List.all_eq_true] at h ⊢
  exact fun kv hkv => h kv (hp.mem_iff.mpr hkv)

theorem simpleMeta_sortPairs (m : Meta) (h : simpleMeta m = true) :
    simpleMeta (sortPairs m) = true :=
  simpleMeta_of_perm m (sortPairs m) (sortPairs_perm m).symm h

theorem yamlParse_strip_yamlDump (m : Meta) (h : simpleMeta m = true) :
    yamlParse (pyStrip ('\n' :: yamlDump m)) = sortPairs m :=
  yamlParse_strip_dumpLines (sortPairs m) (simpleMeta_sortPairs m h)

theorem mem_dictSet {α : Type} (m : List (Str × α)) (k : Str) (v : α)
    (p : Str × α) (h : p ∈ dictSet m k v) : p ∈ m ∨ p = (k, v) := by
  unfold dictSet at h
  by_cases hc : dictContains m k = true
  · rw [if_pos hc] at h
    rcases List.mem_map.mp h with ⟨q, hq, he⟩
    by_cases hqk : (q.1 == k) = true
    · rw [if_pos hqk] at he
      exact Or.inr he.symm
    · rw [if_neg hqk] at he
      exact Or.inl (he ▸ hq)
  · rw [if_neg hc] at h
    rcases List.mem_append.mp h with h1 | h1
    · exact Or.inl h1
    · exact Or.inr (by simpa using h1)

theorem mem_dictUpdate {α : Type} (m patch : List (Str × α)) (p : Str × α)
    (h : p ∈ dictUpdate m patch) : p ∈ m ∨ p ∈ patch := by
  induction patch generalizing m with
  | nil => exact Or.inl h
  | cons q t ih =>
    have h2 : p ∈ dictUpdate (dictSet m q.1 q.2) t := h
    rcases ih (dictSet m q.1 q.2) h2 with h3 | h3
    · rcases mem_dictSet m q.1 q.2 p h3 with h4 | h4
      · exact Or.inl h4
      · exact Or.inr (by rw [h4, Prod.mk.eta]; exact List.mem_cons_self q t)
    · exact Or.inr (List.mem_cons_of_mem q h3)

theorem simpleMeta_dictUpdate (m patch : Meta) (hm : simpleMeta m = true)
    (hp : simpleMeta patch = true) :
    simpleMeta (dictUpdate m patch) = true := by
  unfold simpleMeta at hm hp ⊢
  rw [List.all_eq_true] at hm hp ⊢
  intro kv hkv
  rcases mem_dictUpdate m patch kv hkv with h | h
  · exact hm kv h
  · exact hp kv h

theorem mem_dumpLines (c : Char) (l : Meta) (h : c ∈ dumpLines l) :
    c = '\n' ∨ ∃ kv ∈ l, c ∈ lineOf kv := by
  induction l with
  | nil => exact absurd h (by simp [show dumpLines [] = [] from rfl])
  | cons kv t ih =>
    rw [dumpLines_cons] at h
    rcases List.mem_append.mp h with h1 | h1
    · exact Or.inr ⟨kv, List.mem_cons_self kv t, h1⟩
    · rcases List.mem_cons.mp h1 with he | h2
      · exact Or.inl he
      · rcases ih h2 with h3 | ⟨q, hq, hc⟩
        · exact Or.inl h3
        · exact Or.inr ⟨q, List.mem_cons_of_mem kv hq, hc⟩

theorem yamlDump_no_dash (m : Meta) (h : simpleMeta m = true) :
    (yamlDump m).contains '-' = false := by
  have hs : simpleMeta (sortPairs m) = true := simpleMeta_sortPairs m h
  apply contains_eq_false_of_forall
  intro c hc he
  subst he
  rcases mem_dumpLines '-' (sortPairs m) hc with h1 | ⟨kv, hkv, hcm⟩
  · exact absurd h1 (by decide)
  · obtain ⟨hk, hv⟩ := simpleMeta_mem _ hs kv hkv
    exact dash_not_mem_lineOf kv hk hv hcm

/-- C9 amended: on a stored id, `update_metadata` merges the patch into the
record's metadata — patch keys overwrite, every other key keeps its previous
value — and rewrites the record file in place with the merged metadata and
the body re-stripped of surrounding whitespace, so a later read returns the
same body as before the update (the raw stored bytes change exactly when the
body carried leading or trailing whitespace); an unknown id fails with the
not-found error. -/
theorem c9_update_metadata_merges_patch (id name body : Str)
    (md0 patch : Meta) (s : Store) (id2 : Str) (s2 : Store)
    (hd1 : dirExists s [id.take 2] = true)
    (hd2 : dirExists s (contentDir id) = true)
    (hfind : (listdir s (contentDir id)).find?
      (fun n => trailsWith (str ".md") n) = some name)
    (hread : fsRead s (contentDir id ++ [name]) = some (mkFile md0 body))
    (hm0 : simpleMeta md0 = true)
    (hmp : simpleMeta patch = true)
    (hn0 : NoDupKeys md0)
    (hnp : NoDupKeys patch)
    (hno2 : (listdir s2 (contentDir id2)).all
      (fun n => !trailsWith (str ".md") n) = true) :
    (update_metadata id patch s).1 = Except.ok () ∧
      (update_metadata id patch s).2.1 =
        fsWrite s (contentDir id ++ [name])
          (mkFile (dictUpdate (sortPairs md0) patch) (pyStrip body)) ∧
      (∀ k v, dictGet patch k = some v →
        dictGet (dictUpdate (sortPairs md0) patch) k = some v) ∧
      (∀ k, dictGet patch k = none →
        dictGet (dictUpdate (sortPairs md0) patch) k = dictGet md0 k) ∧
      (parseStoredFile
          (mkFile (dictUpdate (sortPairs md0) patch) (pyStrip body))).1 =
        (parseStoredFile (mkFile md0 body)).1 ∧
      (update_metadata id2 patch s2).1 =
        Except.error (str "No content file found for ID") := by
  have hmk : mkdirs s (contentDir id) = (s, []) :=
    mkdirs_pair_noop s _ _ hd1 hd2
  have hps : parseStoredFile (mkFile md0 body) =
      (pyStrip body, sortPairs md0) := by
    rw [parseStoredFile_mkFile md0 body (yamlDump_no_dash md0 hm0)]
    rw [yamlParse_strip_yamlDump md0 hm0]
  have hfile : update_metadata_file (contentDir id ++ [name]) patch s =
      (Except.ok (), fsWrite s (contentDir id ++ [name])
        (mkFile (dictUpdate (sortPairs md0) patch) (pyStrip body)),
       [FsEvent.openWriteE (contentDir id ++ [name])
         (mkFile (dictUpdate (sortPairs md0) patch) (pyStrip body))]) := by
    simp only [update_metadata_file, hread, hps]
  have hupdate : update_metadata id patch s =
      (Except.ok (), fsWrite s (contentDir id ++ [name])
        (mkFile (dictUpdate (sortPairs md0) patch) (pyStrip body)),
       [] ++ [FsEvent.openWriteE (contentDir id ++ [name])
         (mkFile (dictUpdate (sortPairs md0) patch) (pyStrip body))]) := by
    simp only [update_metadata, hmk, hd2, Bool.not_true, Bool.false_eq_true,
      if_false, hfind, hfile]
  refine ⟨by rw [hupdate], by rw [hupdate], ?_, ?_, ?_, ?_⟩
  · intro k v hkv
    exact dictGet_dictUpdate_mem (sortPairs md0) patch k v hnp
      ((dictGet_some_iff patch hnp k v).mp hkv)
  · intro k hk
    rw [dictGet_dictUpdate_notmem _ patch k ((dictGet_none_iff patch k).mp hk)]
    exact dictGet_sortPairs md0 k hn0
  · rw [parseStoredFile_mkFile md0 body (yamlDump_no_dash md0 hm0)]
    rw [parseStoredFile_mkFile _ (pyStrip body)
      (yamlDump_no_dash _
        (simpleMeta_dictUpdate _ _ (simpleMeta_sortPairs md0 hm0) hmp))]
    exact pyStrip_idem body
  · have hpair : (mkdirs s2 (contentDir id2)).1 =
        (mkdirOne (mkdirOne s2 [id2.take 2]).1 (contentDir id2)).1 := rfl
    have hex : dirExists (mkdirs s2 (contentDir id2)).1
        (contentDir id2) = true := by
      rw [hpair]
      exact mkdirOne_dirExists _ _
    have hld : listdir (mkdirs s2 (contentDir id2)).1 (contentDir id2) =
        listdir s2 (contentDir id2) := by
      rw [hpair]
      simp only [contentDir]
      rw [listdir_mkdirOne_irrelevant _ _ _ (childName_two_two _ _ _ _)]
      rw [listdir_mkdirOne_irrelevant _ _ _ (childName_one_two _ _ _)]
    have hfind2 : (listdir (mkdirs s2 (contentDir id2)).1
        (contentDir id2)).find? (fun n => trailsWith (str ".md") n) = none := by
      rw [hld]
      rw [List.find?_eq_none]
      intro x hx
      rw [List.all_eq_true] at hno2
      simpa using hno2 x hx
    simp only [update_metadata, hex, hfind2, Bool.not_true, Bool.false_eq_true,
      if_false]

/-- Witness for the amended C9 on a concrete one-record store and a concrete
unknown id on the empty store. -/
theorem c9_update_metadata_witness :
    (update_metadata (str "a1") c9patch c9s).1 = Except.ok () ∧
      dictGet (dictUpdate (sortPairs c9md0) c9patch) (str "status") =
        some (str "done") ∧
      dictGet (dictUpdate (sortPairs c9md0) c9patch) (str "url") =
        dictGet c9md0 (str "url") ∧
      (parseStoredFile (mkFile (dictUpdate (sortPairs c9md0) c9patch)
          (pyStrip c9body))).1 =
        (parseStoredFile (mkFile c9md0 c9body)).1 ∧
      (update_metadata (str "bb88") c9patch emptyStore).1 =
        Except.error (str "No content file found for ID") := by
  obtain ⟨h1, h2, h3, h4, h5, h6⟩ :=
    c9_update_metadata_merges_patch (str "a1") (str "h.md") c9body c9md0
      c9patch c9s (str "bb88") emptyStore (by decide) (by decide) (by decide)
      rfl (by decide) (by decide) (by unfold NoDupKeys; decide)
      (by unfold NoDupKeys; decide) (by decide)
  exact ⟨h1, h3 (str "status") (str "done") (by decide),
    h4 (str "url") (by decide), h5, h6⟩

/-- C9 counterexample to the byte-level reading of "leaves the stored body
unchanged": updating metadata on a record whose body has leading whitespace
rewrites the file with the stripped body, so the stored record text changes
beyond its metadata block. -/
theorem c9_counterexample_body_restripped :
    (update_metadata (str "a1") c9patch c9sB).1 = Except.ok () ∧
      fsRead c9sB [str "a1", str "a1", str "h.md"] =
        some (mkFile c9md0 (str " x")) ∧
      fsRead (update_metadata (str "a1") c9patch c9sB).2.1
          [str "a1", str "a1", str "h.md"] =
        some (mkFile (dictUpdate (sortPairs c9md0) c9patch) (str "x")) ∧
      mkFile (dictUpdate (sortPairs c9md0) c9patch) (str "x") ≠
        mkFile (dictUpdate (sortPairs c9md0) c9patch) (str " x") := by
  refine ⟨rfl, rfl, rfl, by decide⟩

/-- C5: `cleanup_old_files` never deletes a content-addressed record.  With
one record (id `ab12`) whose `date_added` ISO timestamp lies a quarter
century before the cutoff, the sweep — which only inspects top-level
directories whose NAME contains exactly two dashes and compares that name to
the cutoff — deletes zero files, returns the store bit-for-bit unchanged
(both indices still hold the record), makes no filesystem call, and
`list_content` still lists the expired id afterwards. -/
theorem c5_cleanup_ignores_expired_content_record :
    lexLtB (str "2000-01-01T00:00:00") (str "2025-01-01") = true ∧
      dictGet c5md (str "date_added") = some (str "2000-01-01T00:00:00") ∧
      cleanup_old_files (str "2025-01-01") c5s = (0, c5s, []) ∧
      ((list_content c5s).1.map (fun p => p.1)).contains (str "ab12") =
        true ∧
      dictGet (cleanup_old_files (str "2025-01-01") c5s).2.1.urlIndex
          (str "u1h") = some (str "ab12") ∧
      dictGet (cleanup_old_files (str "2025-01-01") c5s).2.1.fpIndex
          (str "f1") = some (str "ab12") := by
  refine ⟨rfl, rfl, rfl, rfl, rfl, rfl⟩

theorem splitFirst_append (c : Char) (x y : Str) (h : c ∉ x) :
    splitFirst c (x ++ c :: y) = some (x, y) := by
  induction x with
  | nil =>
    show splitFirst c (c :: y) = some ([], y)
    simp [splitFirst]
  | cons a t ih =>
    have h1 : c ≠ a := fun he => h (by simp [he])
    have hne : (a == c) = false := by
      simp only [beq_eq_false_iff_ne]
      exact fun he => h1 he.symm
    have ht : c ∉ t := fun hm => h (List.mem_cons_of_mem a hm)
    rw [List.cons_append]
    simp [splitFirst, hne, ih ht]

theorem takeWhile_append_stop (p : Char → Bool) (x : Str) (c0 : Char)
    (y : Str) (hall : ∀ c ∈ x, p c = true) (hc : p c0 = false) :
    (x ++ c0 :: y).takeWhile p = x := by
  induction x with
  | nil => simp [List.takeWhile_cons, hc]
  | cons a t ih =>
    rw [List.cons_append, List.takeWhile_cons,
      hall a (List.mem_cons_self a t)]
    rw [ih (fun c hcm => hall c (List.mem_cons_of_mem a hcm))]
    simp

theorem dropWhile_append_stop (p : Char → Bool) (x : Str) (c0 : Char)
    (y : Str) (hall : ∀ c ∈ x, p c = true) (hc : p c0 = false) :
    (x ++ c0 :: y).dropWhile p = c0 :: y := by
  induction x with
  | nil => simp [List.dropWhile_cons, hc]
  | cons a t ih =>
    rw [List.cons_append, List.dropWhile_cons,
      hall a (List.mem_cons_self a t)]
    simp only [if_true]
    exact ih (fun c hcm => hall c (List.mem_cons_of_mem a hcm))

theorem mem_joinSep (sep : Str) (l : List Str) (c : Char)
    (h : c ∈ joinSep sep l) : (∃ x ∈ l, c ∈ x) ∨ c ∈ sep := by
  induction l with
  | nil => exact absurd h (by simp [joinSep])
  | cons x t ih =>
    cases t with
    | nil => exact Or.inl ⟨x, by simp, h⟩
    | cons y t2 =>
      rw [show joinSep sep (x :: y :: t2) =
        (x ++ sep) ++ joinSep sep (y :: t2) from rfl] at h
      rcases List.mem_append.mp h with h1 | h1
      · rcases List.mem_append.mp h1 with h2 | h2
        · exact Or.inl ⟨x, by simp, h2⟩
        · exact Or.inr h2
      · rcases ih h1 with ⟨z, hz, hcz⟩ | h2
        · exact Or.inl ⟨z, List.mem_cons_of_mem x hz, hcz⟩
        · exact Or.inr h2

theorem joinSep_ne_nil (sep : Str) (x : Str) (t : List Str) (hx : x ≠ []) :
    joinSep sep (x :: t) ≠ [] := by
  cases t with
  | nil => exact hx
  | cons y t2 =>
    rw [show joinSep sep (x :: y :: t2) =
      (x ++ sep) ++ joinSep sep (y :: t2) from rfl]
    intro he
    rcases List.append_eq_nil.mp he with ⟨h1, h2⟩
    rcases List.append_eq_nil.mp h1 with ⟨h3, h4⟩
    exact hx h3

theorem splitSep_joinSep (c : Char) (l : List Str)
    (h : ∀ x ∈ l, c ∉ x) : l ≠ [] → splitSep c (joinSep [c] l) = l := by
  induction l with
  | nil => intro he; exact absurd rfl he
  | cons x t ih =>
    intro _
    cases t with
    | nil => exact splitSep_not_mem c x (h x (by simp))
    | cons y t2 =>
      rw [show joinSep [c] (x :: y :: t2) =
        (x ++ [c]) ++ joinSep [c] (y :: t2) from rfl]
      rw [List.append_assoc]
      rw [show ([c] : Str) ++ joinSep [c] (y :: t2) =
        c :: joinSep [c] (y :: t2) from rfl]
      rw [splitSep_append_cons c x _ (h x (by simp))]
      rw [ih (fun z hz => h z (List.mem_cons_of_mem x hz)) (by simp)]

theorem unquotePlus_cons_plain (c : Char) (t : Str) (h1 : c ≠ '%')
    (h2 : c ≠ '+') : unquotePlus (c :: t) = c :: unquotePlus t := by
  cases t with
  | nil => simp [unquotePlus, h1, h2]
  | cons a t2 =>
    cases t2 with
    | nil => simp [unquotePlus, h1, h2]
    | cons b t3 => simp [unquotePlus, h1, h2]

theorem unquotePlus_safe (s : Str) (h : ∀ c ∈ s, alwaysSafe c = true) :
    unquotePlus s = s := by
  induction s with
  | nil => rfl
  | cons c t ih =>
    have hc := h c (List.mem_cons_self c t)
    rw [unquotePlus_cons_plain c t
      (ne_of_pred_ne alwaysSafe c '%' hc (by decide))
      (ne_of_pred_ne alwaysSafe c '+' hc (by decide))]
    rw [ih (fun d hd => h d (List.mem_cons_of_mem c hd))]

theorem quotePlus_safe (s : Str) (h : ∀ c ∈ s, alwaysSafe c = true) :
    quotePlus s = s := by
  induction s with
  | nil => rfl
  | cons c t ih =>
    have hc := h c (List.mem_cons_self c t)
    have hsp : (c == ' ') = false := by
      simp only [beq_eq_false_iff_ne]
      exact ne_of_pred_ne alwaysSafe c ' ' hc (by decide)
    show (if (c == ' ') = true then [ '+' ]
        else if alwaysSafe c = true then [c]
        else ['%', hexDigitU (c.toNat / 16 % 16), hexDigitU (c.toNat % 16)])
      ++ quotePlus t = c :: t
    rw [hsp, hc]
    simp only [Bool.false_eq_true, if_false, if_true]
    rw [ih (fun d hd => h d (List.mem_cons_of_mem c hd))]
    rfl

theorem parsePair_field (k v : Str) (hk1 : k ≠ [])
    (hk2 : ∀ c ∈ k, alwaysSafe c = true) (hv1 : v ≠ [])
    (hv2 : ∀ c ∈ v, alwaysSafe c = true) :
    parsePair (k ++ '=' :: v) = some (k, v) := by
  have hkeq : '=' ∉ k :=
    fun hm => absurd (hk2 '=' hm) (by decide)
  have hne : (k ++ '=' :: v).isEmpty = false := by
    cases k with
    | nil => exact absurd rfl hk1
    | cons a t => rfl
  have hvne : v.isEmpty = false := by
    cases v with
    | nil => exact absurd rfl hv1
    | cons a t => rfl
  unfold parsePair
  rw [hne]
  simp only [Bool.false_eq_true, if_false]
  rw [splitFirst_append '=' k v hkeq]
  show (if v.isEmpty = true then none
    else some (unquotePlus k, unquotePlus v)) = some (k, v)
  rw [hvne]
  simp only [Bool.false_eq_true, if_false]
  rw [unquotePlus_safe k hk2, unquotePlus_safe v hv2]

theorem qsGroupAdd_new (acc : List (Str × List Str)) (kv : Str × Str)
    (h : ∀ q ∈ acc, q.1 ≠ kv.1) :
    qsGroupAdd acc kv = acc ++ [(kv.1, [kv.2])] := by
  unfold qsGroupAdd
  rw [if_neg ?hc]
  case hc =>
    intro hc
    rw [List.any_eq_true] at hc
    obtain ⟨q, hq, hqe⟩ := hc
    exact h q hq (beq_iff_eq.mp hqe)

theorem foldl_qsGroupAdd_distinct (l : List (Str × Str))
    (acc : List (Str × List Str))
    (hd : ∀ p ∈ l, ∀ q ∈ acc, q.1 ≠ p.1)
    (hl : List.Pairwise (fun p q => p.1 ≠ q.1) l) :
    l.foldl qsGroupAdd acc = acc ++ l.map (fun p => (p.1, [p.2])) := by
  induction l generalizing acc with
  | nil => simp
  | cons kv t ih =>
    obtain ⟨hhead, htail⟩ := List.pairwise_cons.mp hl
    rw [List.foldl_cons]
    rw [qsGroupAdd_new acc kv
      (fun q hq => hd kv (List.mem_cons_self kv t) q hq)]
    rw [ih (acc ++ [(kv.1, [kv.2])]) ?hd2 htail]
    · simp [List.append_assoc]
    case hd2 =>
      intro p hp q hq
      rcases List.mem_append.mp hq with h1 | h1
      · exact hd p (List.mem_cons_of_mem kv hp) q h1
      · have hqe : q = (kv.1, [kv.2]) := by simpa using h1
        rw [hqe]
        exact hhead p hp

theorem filter_map_fst (l : List (Str × Str)) (g : Str → Bool) :
    ((l.map (fun p => (p.1, [p.2]))).filter (fun kv => g kv.1)) =
      (l.filter (fun p => g p.1)).map (fun p => (p.1, [p.2])) := by
  induction l with
  | nil => rfl
  | cons p t ih =>
    by_cases h : g p.1 = true
    · simp only [List.map_cons, List.filter_cons, h, if_true, ih]
    · simp only [List.map_cons, List.filter_cons, h, Bool.false_eq_true,
        if_false, ih]

theorem urlencode_singles (l : List (Str × Str)) :
    urlencode (l.map (fun p => (p.1, [p.2]))) =
      joinSep ['&']
        (l.map (fun p => quotePlus p.1 ++ '=' :: quotePlus p.2)) := by
  unfold urlencode
  congr 1
  induction l with
  | nil => rfl
  | cons p t ih =>
    rw [List.map_cons, List.flatMap_cons, ih, List.map_cons]
    rfl

theorem map_field_safe (l : List (Str × Str))
    (h : ∀ p ∈ l, (∀ c ∈ p.1, alwaysSafe c = true) ∧
      (∀ c ∈ p.2, alwaysSafe c = true)) :
    l.map (fun p => quotePlus p.1 ++ '=' :: quotePlus p.2) =
      l.map (fun p => p.1 ++ '=' :: p.2) := by
  induction l with
  | nil => rfl
  | cons p t ih =>
    obtain ⟨h1, h2⟩ := h p (List.mem_cons_self p t)
    rw [List.map_cons, List.map_cons,
      quotePlus_safe p.1 h1, quotePlus_safe p.2 h2,
      ih (fun q hq => h q (List.mem_cons_of_mem p hq))]

theorem isEmpty_map {α β : Type} (f : α → β) (l : List α) :
    (l.map f).isEmpty = l.isEmpty := by
  cases l <;> rfl

theorem toNat_ofNat_valid (n : Nat) (h : n < 55296) :
    (Char.ofNat n).toNat = n := by
  have hv : n.isValidChar := Or.inl h
  unfold Char.ofNat
  rw [dif_pos hv]
  rfl

theorem pyLowerChar_idem (c : Char) :
    pyLowerChar (pyLowerChar c) = pyLowerChar c := by
  unfold pyLowerChar
  by_cases h : 'A' ≤ c ∧ c ≤ 'Z'
  · rw [if_pos h]
    have hA : 65 ≤ c.toNat := h.1
    have hZ : c.toNat ≤ 90 := h.2
    have ht : (Char.ofNat (c.toNat + 32)).toNat = c.toNat + 32 :=
      toNat_ofNat_valid _ (by omega)
    rw [if_neg ?hc]
    case hc =>
      rintro ⟨h1, h2⟩
      have h2n : (Char.ofNat (c.toNat + 32)).toNat ≤ 90 := h2
      rw [ht] at h2n
      omega
  · rw [if_neg h, if_neg h]

theorem pyLower_idem (s : Str) : pyLower (pyLower s) = pyLower s := by
  unfold pyLower
  rw [List.map_map]
  induction s with
  | nil => rfl
  | cons c t ih =>
    rw [List.map_cons, List.map_cons]
    rw [show (pyLowerChar ∘ pyLowerChar) c = pyLowerChar c from
      pyLowerChar_idem c]
    rw [ih]

theorem pyLower_isEmpty_false (s : Str) (h : s ≠ []) :
    (pyLower s).isEmpty = false := by
  cases s with
  | nil => exact absurd rfl h
  | cons a t => rfl

theorem field_no_amp (p : Str × Str)
    (h3 : ∀ c ∈ p.1, alwaysSafe c = true)
    (h4 : ∀ c ∈ p.2, alwaysSafe c = true) : '&' ∉ p.1 ++ '=' :: p.2 := by
  intro hm
  rcases List.mem_append.mp hm with h1 | h1
  · exact absurd (h3 '&' h1) (by decide)
  · rcases List.mem_cons.mp h1 with he | h1
    · exact absurd he (by decide)
    · exact absurd (h4 '&' h1) (by decide)

theorem filterMap_parsePair_fields (l : List (Str × Str))
    (h : ∀ p ∈ l, p.1 ≠ [] ∧ p.2 ≠ [] ∧ (∀ c ∈ p.1, alwaysSafe c = true) ∧
      (∀ c ∈ p.2, alwaysSafe c = true)) :
    (l.map (fun p => p.1 ++ '=' :: p.2)).filterMap parsePair = l := by
  induction l with
  | nil => rfl
  | cons p t ih =>
    obtain ⟨h1, h2, h3, h4⟩ := h p (List.mem_cons_self p t)
    rw [List.map_cons,
      List.filterMap_cons_some (parsePair_field p.1 p.2 h1 h3 h2 h4),
      ih (fun q hq => h q (List.mem_cons_of_mem p hq))]

theorem parse_qsl_fields (l : List (Str × Str))
    (h : ∀ p ∈ l, p.1 ≠ [] ∧ p.2 ≠ [] ∧ (∀ c ∈ p.1, alwaysSafe c = true) ∧
      (∀ c ∈ p.2, alwaysSafe c = true)) :
    parse_qsl (joinSep ['&'] (l.map (fun p => p.1 ++ '=' :: p.2))) = l := by
  cases l with
  | nil => rfl
  | cons p0 t0 =>
    unfold parse_qsl
    rw [splitSep_joinSep '&' _ ?hamp (by simp)]
    · exact filterMap_parsePair_fields _ h
    case hamp =>
      intro x hx
      rcases List.mem_map.mp hx with ⟨p, hp, he⟩
      obtain ⟨h1, h2, h3, h4⟩ := h p hp
      rw [← he]
      exact field_no_amp p h3 h4

theorem filter_map_tracking (l : List (Str × Str)) :
    ((l.map (fun p => (p.1, [p.2]))).filter
        (fun kv => !memStr kv.1 trackingParams)) =
      (l.filter (fun p => !memStr p.1 trackingParams)).map
        (fun p => (p.1, [p.2])) :=
  filter_map_fst l (fun k => !memStr k trackingParams)

theorem isEmpty_false_of_ne_nil {α : Type} (l : List α) (h : l ≠ []) :
    l.isEmpty = false := by
  cases l with
  | nil => exact absurd rfl h
  | cons a t => rfl

/-- C7 amended: `normalise_url` lower-cases the scheme and host, drops the
fragment and removes the fixed tracking parameters, but it does not preserve
the encoding verbatim: the query is re-parsed with `parse_qs` (which drops
blank-valued fields and regroups duplicate keys) and re-encoded with
`quote_plus`.  On a URL assembled from an all-letter scheme, a bracket-free
host, a `?#;`-free path and pairwise-distinct nonempty query pairs over the
quote-safe alphabet, the result is exactly the lower-cased reassembly with
the tracking pairs deleted and the other pairs kept in order; on any parse
failure the input is returned unchanged; and the spec example holds. -/
theorem c7_normalise_url_pipeline (scheme host path2 frag : Str)
    (pairs : List (Str × Str))
    (hs1 : scheme ≠ [])
    (hs2 : ∀ c ∈ scheme, isAlphaB c = true)
    (hh1 : host ≠ [])
    (hh2 : ∀ c ∈ host, (netlocEndChar c || c == '[' || c == ']') = false)
    (hp1 : ∀ c ∈ path2, (c == '?' || c == '#' || c == ';') = false)
    (hq : ∀ p ∈ pairs, p.1 ≠ [] ∧ p.2 ≠ [] ∧
      (∀ c ∈ p.1, alwaysSafe c = true) ∧ (∀ c ∈ p.2, alwaysSafe c = true))
    (hdist : List.Pairwise (fun p q => p.1 ≠ q.1) pairs) :
    normalise_url (scheme ++ ':' :: '/' :: '/' ::
        (host ++ '/' :: (path2 ++ '?' ::
          (joinSep ['&'] (pairs.map (fun p => p.1 ++ '=' :: p.2)) ++
            '#' :: frag)))) =
      pyLower scheme ++ ':' :: '/' :: '/' ::
        (pyLower host ++ '/' :: (path2 ++
          (if (pairs.filter
              (fun p => !memStr p.1 trackingParams)).isEmpty then []
            else '?' :: joinSep ['&']
              ((pairs.filter (fun p => !memStr p.1 trackingParams)).map
                (fun p => p.1 ++ '=' :: p.2))))) ∧
      (∀ u, pyUrlparse u = none → normalise_url u = u) ∧
      normalise_url (str "https://EXAMPLE.com/a?utm_source=x&id=5#frag") =
        str "https://example.com/a?id=5" := by
  refine ⟨?_, fun u hu => by unfold normalise_url; rw [hu], by rfl⟩
  have hcolon : ':' ∉ scheme := fun hm => absurd (hs2 ':' hm) (by decide)
  have hsf1 : splitFirst ':' (scheme ++ ':' :: '/' :: '/' ::
      (host ++ '/' :: (path2 ++ '?' ::
        (joinSep ['&'] (pairs.map (fun p => p.1 ++ '=' :: p.2)) ++
          '#' :: frag)))) =
      some (scheme, '/' :: '/' :: (host ++ '/' :: (path2 ++ '?' ::
        (joinSep ['&'] (pairs.map (fun p => p.1 ++ '=' :: p.2)) ++
          '#' :: frag)))) :=
    splitFirst_append ':' scheme _ hcolon
  have hschE : scheme.isEmpty = false := isEmpty_false_of_ne_nil _ hs1
  have hcond1 : (!scheme.isEmpty && scheme.all schemeChar &&
      isAlphaB (scheme.headD 'a')) = true := by
    rw [hschE]
    rw [List.all_eq_true.mpr (fun c hc => by
      show schemeChar c = true
      unfold schemeChar
      rw [hs2 c hc]
      rfl)]
    cases scheme with
    | nil => exact absurd rfl hs1
    | cons a t =>
      show (!false && true && isAlphaB a) = true
      rw [hs2 a (List.mem_cons_self a t)]
      rfl
  have hhost3 : ∀ c ∈ host, netlocEndChar c = false ∧ (c == '[') = false ∧
      (c == ']') = false := by
    intro c hc
    have h3 := hh2 c hc
    rw [Bool.or_eq_false_iff, Bool.or_eq_false_iff] at h3
    exact ⟨h3.1.1, h3.1.2, h3.2⟩
  have htake : (host ++ '/' :: (path2 ++ '?' ::
      (joinSep ['&'] (pairs.map (fun p => p.1 ++ '=' :: p.2)) ++
        '#' :: frag))).takeWhile (fun c => !netlocEndChar c) = host :=
    takeWhile_append_stop _ host '/' _
      (fun c hc => by rw [(hhost3 c hc).1]; rfl) (by decide)
  have hdropw : (host ++ '/' :: (path2 ++ '?' ::
      (joinSep ['&'] (pairs.map (fun p => p.1 ++ '=' :: p.2)) ++
        '#' :: frag))).dropWhile (fun c => !netlocEndChar c) =
      '/' :: (path2 ++ '?' ::
        (joinSep ['&'] (pairs.map (fun p => p.1 ++ '=' :: p.2)) ++
          '#' :: frag)) :=
    dropWhile_append_stop _ host '/' _
      (fun c hc => by rw [(hhost3 c hc).1]; rfl) (by decide)
  have hbr : ((host.contains '[') != (host.contains ']')) = false := by
    rw [contains_eq_false_of_forall host '['
      (fun c hc => beq_eq_false_iff_ne.mp (hhost3 c hc).2.1)]
    rw [contains_eq_false_of_forall host ']'
      (fun c hc => beq_eq_false_iff_ne.mp (hhost3 c hc).2.2)]
    rfl
  have hQSnoHash : '#' ∉ joinSep ['&']
      (pairs.map (fun p => p.1 ++ '=' :: p.2)) := by
    intro hm
    rcases mem_joinSep ['&'] _ '#' hm with ⟨x, hx, hcx⟩ | hsep
    · rcases List.mem_map.mp hx with ⟨p, hp, he⟩
      obtain ⟨hk1, hv1, hk2, hv2⟩ := hq p hp
      rw [← he] at hcx
      rcases List.mem_append.mp hcx with h1 | h1
      · exact absurd (hk2 '#' h1) (by decide)
      · rcases List.mem_cons.mp h1 with he2 | h1
        · exact absurd he2 (by decide)
        · exact absurd (hv2 '#' h1) (by decide)
    · exact absurd hsep (by decide)
  have hsf2 : splitFirst '#' ('/' :: (path2 ++ '?' ::
      (joinSep ['&'] (pairs.map (fun p => p.1 ++ '=' :: p.2)) ++
        '#' :: frag))) =
      some ('/' :: (path2 ++ '?' ::
        joinSep ['&'] (pairs.map (fun p => p.1 ++ '=' :: p.2))), frag) := by
    rw [show ('/' :: (path2 ++ '?' ::
        (joinSep ['&'] (pairs.map (fun p => p.1 ++ '=' :: p.2)) ++
          '#' :: frag))) =
      ('/' :: (path2 ++ '?' ::
        joinSep ['&'] (pairs.map (fun p => p.1 ++ '=' :: p.2)))) ++
        '#' :: frag from by simp [List.append_assoc]]
    apply splitFirst_append
    intro hm
    rcases List.mem_cons.mp hm with he | hm2
    · exact absurd he (by decide)
    · rcases List.mem_append.mp hm2 with h1 | h1
      · exact absurd (hp1 '#' h1) (by decide)
      · rcases List.mem_cons.mp h1 with he2 | h1
        · exact absurd he2 (by decide)
        · exact hQSnoHash h1
  have hsf3 : splitFirst '?' ('/' :: (path2 ++ '?' ::
      joinSep ['&'] (pairs.map (fun p => p.1 ++ '=' :: p.2)))) =
      some ('/' :: path2,
        joinSep ['&'] (pairs.map (fun p => p.1 ++ '=' :: p.2))) := by
    rw [show ('/' :: (path2 ++ '?' ::
        joinSep ['&'] (pairs.map (fun p => p.1 ++ '=' :: p.2)))) =
      ('/' :: path2) ++ '?' ::
        joinSep ['&'] (pairs.map (fun p => p.1 ++ '=' :: p.2)) from by
      simp]
    apply splitFirst_append
    intro hm
    rcases List.mem_cons.mp hm with he | hm2
    · exact absurd he (by decide)
    · exact absurd (hp1 '?' hm2) (by decide)
  have hlead2 : leadsWith (str "//") ('/' :: '/' ::
      (host ++ '/' :: (path2 ++ '?' ::
        (joinSep ['&'] (pairs.map (fun p => p.1 ++ '=' :: p.2)) ++
          '#' :: frag)))) = true := rfl
  have hsplitU : pyUrlsplit (scheme ++ ':' :: '/' :: '/' ::
      (host ++ '/' :: (path2 ++ '?' ::
        (joinSep ['&'] (pairs.map (fun p => p.1 ++ '=' :: p.2)) ++
          '#' :: frag)))) =
      some { scheme := pyLower scheme, netloc := host, path := '/' :: path2,
             params := [],
             query := joinSep ['&'] (pairs.map (fun p => p.1 ++ '=' :: p.2)),
             fragment := frag } := by
    simp only [pyUrlsplit, hsf1, hcond1, if_true, hlead2,
      List.drop_succ_cons, List.drop_zero, htake, hdropw, hbr,
      Bool.false_eq_true, if_false, hsf2, hsf3]
  have hsemi : ('/' :: path2).contains ';' = false := by
    apply contains_eq_false_of_forall
    intro c hc he
    subst he
    rcases List.mem_cons.mp hc with he | hm2
    · exact absurd he (by decide)
    · exact absurd (hp1 ';' hm2) (by decide)
  have hparse : pyUrlparse (scheme ++ ':' :: '/' :: '/' ::
      (host ++ '/' :: (path2 ++ '?' ::
        (joinSep ['&'] (pairs.map (fun p => p.1 ++ '=' :: p.2)) ++
          '#' :: frag)))) =
      some { scheme := pyLower scheme, netloc := host, path := '/' :: path2,
             params := [],
             query := joinSep ['&'] (pairs.map (fun p => p.1 ++ '=' :: p.2)),
             fragment := frag } := by
    simp only [pyUrlparse, hsplitU, hsemi, Bool.false_eq_true, if_false]
  have hqsl : parse_qsl (joinSep ['&']
      (pairs.map (fun p => p.1 ++ '=' :: p.2))) = pairs :=
    parse_qsl_fields pairs hq
  have hqs : parse_qs (joinSep ['&']
      (pairs.map (fun p => p.1 ++ '=' :: p.2))) =
      pairs.map (fun p => (p.1, [p.2])) := by
    unfold parse_qs
    rw [hqsl]
    simpa using foldl_qsGroupAdd_distinct pairs [] (by simp) hdist
  have hnet : (pyLower host).isEmpty = false :=
    pyLower_isEmpty_false host hh1
  have hplne : pyLower scheme ≠ [] := by
    intro he
    exact hs1 (List.map_eq_nil_iff.mp he)
  have hsch2 : (pyLower (pyLower scheme)).isEmpty = false :=
    pyLower_isEmpty_false _ hplne
  have hleadS : leadsWith (str "/") ('/' :: path2) = true := rfl
  simp only [normalise_url, hparse, hqs]
  rw [filter_map_tracking pairs]
  rw [isEmpty_map]
  by_cases hfe : (pairs.filter
      (fun p => !memStr p.1 trackingParams)).isEmpty = true
  · rw [hfe]
    simp only [if_true]
    simp only [pyGeturl, urlunsplit, List.isEmpty_nil, if_true, hnet,
      Bool.not_false, Bool.true_or, hleadS, Bool.not_true, Bool.and_false,
      Bool.false_eq_true, if_false, hsch2]
    rw [pyLower_idem scheme, show (str "//") = ['/', '/'] from rfl]
    simp [List.append_assoc]
  · have hfe2 : (pairs.filter
        (fun p => !memStr p.1 trackingParams)).isEmpty = false := by
      simpa using hfe
    rw [hfe2]
    simp only [Bool.false_eq_true, if_false]
    have henc : urlencode ((pairs.filter
        (fun p => !memStr p.1 trackingParams)).map
          (fun p => (p.1, [p.2]))) =
        joinSep ['&'] ((pairs.filter
          (fun p => !memStr p.1 trackingParams)).map
            (fun p => p.1 ++ '=' :: p.2)) := by
      rw [urlencode_singles]
      rw [map_field_safe _
        (fun p hp => (hq p (List.mem_of_mem_filter hp)).2.2)]
    have hqne : (joinSep ['&'] ((pairs.filter
        (fun p => !memStr p.1 trackingParams)).map
          (fun p => p.1 ++ '=' :: p.2))).isEmpty = false := by
      apply isEmpty_false_of_ne_nil
      cases hflt : pairs.filter (fun p => !memStr p.1 trackingParams) with
      | nil =>
        rw [hflt] at hfe2
        exact absurd hfe2 (by simp)
      | cons r0 rt =>
        rw [List.map_cons]
        apply joinSep_ne_nil
        intro he
        have hlen := congrArg List.length he
        simp at hlen
    simp only [pyGeturl, urlunsplit, henc, hqne, List.isEmpty_nil, if_true,
      hnet, Bool.not_false, Bool.true_or, hleadS, Bool.not_true,
      Bool.and_false, Bool.false_eq_true, if_false, hsch2]
    rw [pyLower_idem scheme, show (str "//") = ['/', '/'] from rfl]
    simp [List.append_assoc]


/-- Witness for the amended C7: the structured theorem applied to
`http://Ex/p?utm_source=x&id=5#f`, the fallback on the unparsable
`http://[`, and the spec example. -/
theorem c7_normalise_url_witness :
    pyUrlparse (str "http://[") = none ∧
      normalise_url (str "http://[") = str "http://[" ∧
      normalise_url (str "https://EXAMPLE.com/a?utm_source=x&id=5#frag") =
        str "https://example.com/a?id=5" := by
  obtain ⟨h1, h2, h3⟩ :=
    c7_normalise_url_pipeline (str "http") (str "Ex") (str "p") (str "f")
      [(str "utm_source", str "x"), (str "id", str "5")]
      (by decide) (by decide) (by decide) (by decide) (by decide)
      (by decide) (by decide)
  exact ⟨rfl, h2 (str "http://[") rfl, h3⟩

/-- C7 counterexample to "preserving the order and encoding of all remaining
query parameters" and "removes exactly the fixed tracking parameters": the
non-tracking blank-valued parameter `x=` is silently dropped, and duplicate
keys are regrouped, reordering the remaining parameters. -/
theorem c7_counterexample_params_not_preserved :
    normalise_url (str "https://e.com/a?x=&id=5") =
        str "https://e.com/a?id=5" ∧
      str "https://e.com/a?id=5" ≠ str "https://e.com/a?x=&id=5" ∧
      memStr (str "x") trackingParams = false ∧
      normalise_url (str "https://e.com/a?b=1&a=2&b=3") =
        str "https://e.com/a?b=1&b=3&a=2" := by
  exact ⟨rfl, by decide, by decide, rfl⟩
